import Mathlib

/-!
# Verification of the freeradius-server channel and priority-queue cores

This file is a shallow embedding, in Lean 4, of the parts of the repository
that the specification's claims are about:

* `src/lib/io/channel.c` — the bidirectional requestor/responder channel
  (namespace `Chan`);
* `src/lib/util/lst.c` — the Leftmost Skeleton Tree, in the revision that uses
  a Lomuto partition (namespace `LstC`);
* the second revision of `lst.c` present in the repository (`unnamed/part_000`),
  which uses a Hoare partition with pivot recovery and normalises indices via
  `lst_reduce_indices` (namespace `LstH`);
* `src/lib/util/quickheap.c` — the (unfinished) quickheap (namespace `Qh`).

Modelling conventions:

* Machine integers are modelled as `Int`/`Nat`; the C code's circular-array
  index reduction `i & (capacity - 1)` (with `capacity` a power of two) is
  modelled as `Int.emod i capacity`, which is the same function for
  non-negative powers of two.
* Element pointers are modelled as natural-number addresses (`Addr`); the
  back-index that the LST stores inside each element at a byte offset is
  modelled as a store from addresses to `Int`.
* Arrays and stores are modelled with a binary trie (`NTree`) so that concrete
  executions of thousands of operations remain kernel-evaluable.  A slot that
  was never written holds junk in C; the model reads a fixed default for it.
* `talloc` allocation is modelled as always succeeding (out-of-memory is out of
  scope); the external `fr_fast_rand` generator is modelled as an oracle
  stream carried in the state, one draw per call site.
* `rad_assert` in channel.c is modelled as a guard: an operation whose
  assertion fails returns `none` (the C behaviour is a crash / undefined).
* Uninitialized reads in the quickheap (which its own `todo` comments admit
  exist) are modelled as `none`, and operations that *use* such a value get
  stuck (`Option`-monadic failure).
-/

set_option autoImplicit false

/-! ## A binary trie keyed by `Nat`, used as the array/store model -/

/-- Binary trie with `Option` values; `nil` is the everywhere-unset store. -/
inductive NTree (α : Type) : Type where
  | nil : NTree α
  | node (v : Option α) (l r : NTree α) : NTree α
deriving DecidableEq

namespace NTree

variable {α : Type}

/-- Fuel-indexed read (structural recursion on the fuel, so that the
kernel can evaluate it on closed terms); any fuel `≥ k` gives the value
of slot `k`. -/
def getF : Nat → NTree α → Nat → Option α
  | _, .nil, _ => none
  | _, .node v _ _, 0 => v
  | 0, .node _ _ _, _ + 1 => none
  | fu + 1, .node _ l r, k + 1 =>
    if (k + 1) % 2 = 1 then getF fu l ((k + 1) / 2) else getF fu r ((k + 1) / 2 - 1)

/-- Read slot `k`. `none` means the slot was never written. -/
def get (t : NTree α) (k : Nat) : Option α := getF k t k

/-- Fuel-indexed write; any fuel `≥ k` writes slot `k`. -/
def setF : Nat → NTree α → Nat → α → NTree α
  | _, .nil, 0, x => .node (some x) .nil .nil
  | 0, .nil, _ + 1, _ => .nil
  | fu + 1, .nil, k + 1, x =>
    if (k + 1) % 2 = 1 then .node none (setF fu .nil ((k + 1) / 2) x) .nil
    else .node none .nil (setF fu .nil ((k + 1) / 2 - 1) x)
  | _, .node _ l r, 0, x => .node (some x) l r
  | 0, .node v l r, _ + 1, _ => .node v l r
  | fu + 1, .node v l r, k + 1, x =>
    if (k + 1) % 2 = 1 then .node v (setF fu l ((k + 1) / 2) x) r
    else .node v l (setF fu r ((k + 1) / 2 - 1) x)

/-- Write value `x` at slot `k`. -/
def set (t : NTree α) (k : Nat) (x : α) : NTree α := setF k t k x

end NTree


/-! ## The channel (src/lib/io/channel.c)

Model of `fr_channel_t`.  The two SPSC atomic queues are modelled as bounded
FIFO lists of data descriptors (`ATOMIC_QUEUE_SIZE = 1024`).  The control
plane (`fr_control_message_send`) and the receive callbacks are external
collaborators; their invocations are recorded in an event log and modelled as
succeeding.  `fr_time_t` values are modelled as `Nat` (monotonic nanosecond
counts).  `rad_assert` is a guard: a violated assertion makes the operation
return `none`. -/

namespace Chan

/-- The fields of a `fr_channel_data_t` that the channel reads or writes:
`m.when`, `live.sequence`, `live.ack`, `reply.processing_time`,
`reply.cpu_time`. -/
structure Desc where
  when : Nat
  sequence : Nat
  ack : Nat
  processing_time : Nat
  cpu_time : Nat
deriving DecidableEq

/-- `fr_channel_signal_t`. -/
inductive Signal where
  | sigError
  | sigDataToResponder
  | sigDataToRequestor
  | sigOpen
  | sigClose
  | sigDataDoneResponder
  | sigResponderSleeping
deriving DecidableEq

/-- `fr_channel_direction_t`: `TO_RESPONDER = 0`, `TO_REQUESTOR = 1`. -/
inductive Dir where
  | toResponder
  | toRequestor
deriving DecidableEq

/-- Externally observable actions: a control message handed to
`fr_control_message_send` on behalf of one of the two ends, or an invocation
of one of the two receive callbacks. -/
inductive Event where
  | ctrl (dir : Dir) (sig : Signal) (ack : Nat)
  | cbReply (cd : Desc)
  | cbRequest (cd : Desc)
deriving DecidableEq

/-- One end of a channel (`fr_channel_end_t`).  The external collaborators
(`control`, `rb`, `uctx`, callback pointers) are not part of the state; the
callbacks are assumed installed and their calls are logged as events. -/
structure ChEnd where
  num_outstanding : Nat
  must_signal : Bool
  num_signals : Nat
  num_resignals : Nat
  num_kevents : Nat
  sequence : Nat
  ack : Nat
  their_view_of_my_sequence : Nat
  sequence_at_last_signal : Nat
  num_packets : Nat
  last_write : Nat
  last_read_other : Nat
  message_interval : Nat
  last_sent_signal : Nat
  aq : List Desc
deriving DecidableEq

/-- A channel (`struct fr_channel_s`). -/
structure Channel where
  cpu_time : Nat
  processing_time : Nat
  active : Bool
  same_thread : Bool
  endToResponder : ChEnd
  endToRequestor : ChEnd
  events : List Event
deriving DecidableEq

/-- `ATOMIC_QUEUE_SIZE`. -/
def ATOMIC_QUEUE_SIZE : Nat := 1024

/-- `fr_atomic_queue_push`: fails when the queue is full. -/
def aq_push (q : List Desc) (cd : Desc) : Option (List Desc) :=
  if q.length < ATOMIC_QUEUE_SIZE then some (q ++ [cd]) else none

/-- An end of a freshly created channel: counters zero, stamps set to `now`. -/
def freshEnd (now : Nat) : ChEnd :=
  { num_outstanding := 0, must_signal := false, num_signals := 0
    num_resignals := 0, num_kevents := 0, sequence := 0, ack := 0
    their_view_of_my_sequence := 0, sequence_at_last_signal := 0
    num_packets := 0, last_write := now, last_read_other := now
    message_interval := 0, last_sent_signal := now, aq := [] }

/-- `fr_channel_create` (allocation is modelled as succeeding). -/
def fr_channel_create (same : Bool) (now : Nat) : Channel :=
  { cpu_time := 0, processing_time := 0, active := true, same_thread := same
    endToResponder := freshEnd now, endToRequestor := freshEnd now
    events := [] }

/-- Read an end by direction. -/
def getEnd (ch : Channel) : Dir → ChEnd
  | .toResponder => ch.endToResponder
  | .toRequestor => ch.endToRequestor

/-- Replace an end by direction. -/
def setEnd (ch : Channel) : Dir → ChEnd → Channel
  | .toResponder, e => { ch with endToResponder := e }
  | .toRequestor, e => { ch with endToRequestor := e }

/-- `fr_channel_data_ready`: stamp the signal, count it, clear `must_signal`,
and hand a control message carrying the end's `ack` to the control plane
(transport errors are ignored by the data path and the transport is modelled
as succeeding, returning 0). -/
def fr_channel_data_ready (ch : Channel) (when : Nat) (dir : Dir) (which : Signal) :
    Int × Channel :=
  let e := getEnd ch dir
  let e := { e with last_sent_signal := when, num_signals := e.num_signals + 1
                    must_signal := false }
  let ch := setEnd ch dir e
  (0, { ch with events := ch.events ++ [.ctrl dir which e.ack] })

/-- `IALPHA`. -/
def IALPHA : Nat := 8

/-- The `RTT(_old, _new)` macro: `(new + (IALPHA-1)*old) / IALPHA`. -/
def RTT (old new : Nat) : Nat := (new + (IALPHA - 1) * old) / IALPHA

/-- The state change of a successful `fr_channel_recv_reply` pop: update the
processing-time EMA (NAKs with zero `processing_time` are skipped), record the
responder cpu time, account the reply on the requestor bookkeeping, publish
the ack via the atomic `their_view_of_my_sequence`, and invoke the reply
callback. -/
def recvReplyApply (ch : Channel) (cd : Desc) (rest : List Desc) : Channel :=
  let ch := { ch with
    endToRequestor := { ch.endToRequestor with aq := rest }
    processing_time := if cd.processing_time ≠ 0 then
        RTT ch.processing_time cd.processing_time else ch.processing_time
    cpu_time := cd.cpu_time }
  let ch := { ch with endToResponder := { ch.endToResponder with
    num_outstanding := ch.endToResponder.num_outstanding - 1
    ack := cd.sequence
    their_view_of_my_sequence := cd.ack
    last_read_other := cd.when } }
  { ch with events := ch.events ++ [.cbReply cd] }

/-- `fr_channel_recv_reply`.  Returns whether a message was read; the
`rad_assert`s on ordering, outstanding count and stamp monotonicity are
guards. -/
def fr_channel_recv_reply (ch : Channel) : Option (Bool × Channel) :=
  match ch.endToRequestor.aq with
  | [] => some (false, ch)
  | cd :: rest =>
    if 0 < ch.endToResponder.num_outstanding ∧
        ch.endToResponder.ack < cd.sequence ∧
        cd.sequence ≤ ch.endToResponder.sequence ∧
        ch.endToResponder.last_read_other ≤ cd.when
    then some (true, recvReplyApply ch cd rest)
    else none

/-- The state change of a successful `fr_channel_recv_request` pop. -/
def recvRequestApply (ch : Channel) (cd : Desc) (rest : List Desc) : Channel :=
  let ch := { ch with endToResponder := { ch.endToResponder with aq := rest } }
  let ch := { ch with endToRequestor := { ch.endToRequestor with
    num_outstanding := ch.endToRequestor.num_outstanding + 1
    ack := cd.sequence
    their_view_of_my_sequence := cd.ack
    last_read_other := cd.when } }
  { ch with events := ch.events ++ [.cbRequest cd] }

/-- `fr_channel_recv_request`: symmetric to `fr_channel_recv_reply`, on the
responder side (no EMA is kept for requests). -/
def fr_channel_recv_request (ch : Channel) : Option (Bool × Channel) :=
  match ch.endToResponder.aq with
  | [] => some (false, ch)
  | cd :: rest =>
    if ch.endToRequestor.ack < cd.sequence ∧
        ch.endToRequestor.sequence ≤ cd.sequence ∧
        ch.endToRequestor.last_read_other ≤ cd.when
    then some (true, recvRequestApply ch cd rest)
    else none

/-- The `while (fr_channel_recv_reply(ch));` drain loop, with fuel. -/
def drainReplies : Nat → Channel → Option Channel
  | 0, ch => some ch
  | fuel + 1, ch =>
    match fr_channel_recv_reply ch with
    | none => none
    | some (false, ch) => some ch
    | some (true, ch) => drainReplies fuel ch

/-- The `while (fr_channel_recv_request(ch));` drain loop, with fuel. -/
def drainRequests : Nat → Channel → Option Channel
  | 0, ch => some ch
  | fuel + 1, ch =>
    match fr_channel_recv_request ch with
    | none => none
    | some (false, ch) => some ch
    | some (true, ch) => drainRequests fuel ch

/-- The descriptor as stamped by `fr_channel_send_request`:
`cd->live.sequence = requestor->sequence + 1`, `cd->live.ack = requestor->ack`. -/
def reqStamp (ch : Channel) (cd : Desc) : Desc :=
  { cd with sequence := ch.endToResponder.sequence + 1, ack := ch.endToResponder.ack }

/-- Requestor bookkeeping after a successful push in `fr_channel_send_request`:
commit the sequence, update the message-interval EMA (the first sample is
stored as-is because `message_interval` starts at 0), advance `last_write`,
and count the outstanding packet. -/
def sendRequestCommit (ch : Channel) (cd : Desc) (q : List Desc) : Channel :=
  { ch with endToResponder := { ch.endToResponder with
      aq := q
      sequence := ch.endToResponder.sequence + 1
      message_interval := if ch.endToResponder.message_interval = 0
        then cd.when - ch.endToResponder.last_write
        else RTT ch.endToResponder.message_interval (cd.when - ch.endToResponder.last_write)
      last_write := cd.when
      num_outstanding := ch.endToResponder.num_outstanding + 1
      num_packets := ch.endToResponder.num_packets + 1 } }

/-- `fr_channel_send_request`.  Note that, unlike `fr_channel_send_reply`,
this function performs no check of the channel's `active` flag.  On push
failure it drains pending replies and reports -1; on success it signals
`DATA_TO_RESPONDER` (signal transport errors are ignored). -/
def fr_channel_send_request (ch : Channel) (cd : Desc) : Option (Int × Channel) :=
  if ch.same_thread then
    some (0, { ch with events := ch.events ++ [.cbRequest cd] })
  else
    match aq_push ch.endToResponder.aq (reqStamp ch cd) with
    | none => (drainReplies (ch.endToRequestor.aq.length + 1) ch).map (fun c => (-1, c))
    | some q =>
      if ch.endToResponder.last_write ≤ cd.when then
        some (fr_channel_data_ready (sendRequestCommit ch cd q) cd.when
          .toResponder .sigDataToResponder)
      else none

/-- The descriptor as stamped by `fr_channel_send_reply`. -/
def respStamp (ch : Channel) (cd : Desc) : Desc :=
  { cd with sequence := ch.endToRequestor.sequence + 1, ack := ch.endToRequestor.ack }

/-- Responder bookkeeping after a successful push in `fr_channel_send_reply`
(`message_interval` is updated through `RTT` unconditionally here). -/
def sendReplyCommit (ch : Channel) (cd : Desc) (q : List Desc) : Channel :=
  { ch with endToRequestor := { ch.endToRequestor with
      aq := q
      num_outstanding := ch.endToRequestor.num_outstanding - 1
      num_packets := ch.endToRequestor.num_packets + 1
      sequence := ch.endToRequestor.sequence + 1
      message_interval := RTT ch.endToRequestor.message_interval
        (cd.when - ch.endToRequestor.last_write)
      last_write := cd.when } }

/-- The signalling decision at the end of `fr_channel_send_reply`: with no
packets outstanding, signal `DATA_DONE_RESPONDER` unconditionally; otherwise
skip the signal when the peer has not caught up with the previous signal
(`sequence_at_last_signal > their_view_of_my_sequence`), else assert
`their_view_of_my_sequence ≤ sequence` and signal `DATA_TO_REQUESTOR`. -/
def sendReplySignal (ch : Channel) (when : Nat) : Option (Int × Channel) :=
  if ch.endToRequestor.num_outstanding = 0 then
    some (fr_channel_data_ready ch when .toRequestor .sigDataDoneResponder)
  else if ch.endToRequestor.their_view_of_my_sequence <
      ch.endToRequestor.sequence_at_last_signal then
    some (0, ch)
  else if ch.endToRequestor.their_view_of_my_sequence ≤ ch.endToRequestor.sequence then
    some (fr_channel_data_ready ch when .toRequestor .sigDataToRequestor)
  else none

/-- `fr_channel_send_reply`.  Refuses on an inactive channel; after a
successful push it drains newly arrived requests and then decides whether to
signal. -/
def fr_channel_send_reply (ch : Channel) (cd : Desc) : Option (Int × Channel) :=
  if ch.active = false then
    some (-1, ch)
  else if ch.same_thread then
    some (0, { ch with events := ch.events ++ [.cbReply cd] })
  else
    match aq_push ch.endToRequestor.aq (respStamp ch cd) with
    | none => (drainRequests (ch.endToResponder.aq.length + 1) ch).map (fun c => (-1, c))
    | some q =>
      if 0 < ch.endToRequestor.num_outstanding ∧
          ch.endToRequestor.last_write ≤ cd.when then
        match drainRequests ((sendReplyCommit ch cd q).endToResponder.aq.length + 1)
            (sendReplyCommit ch cd q) with
        | none => none
        | some ch2 => sendReplySignal ch2 cd.when
      else none

/-- `fr_channel_null_reply`: advance the responder sequence without sending. -/
def fr_channel_null_reply (ch : Channel) : Int × Channel :=
  (0, { ch with endToRequestor :=
    { ch.endToRequestor with sequence := ch.endToRequestor.sequence + 1 } })

/-- `fr_channel_active`. -/
def fr_channel_active (ch : Channel) : Bool := ch.active

/-- `fr_channel_signal_responder_close`: flip `active` off and send a `CLOSE`
control message whose `ack` field is `TO_RESPONDER` (0). -/
def fr_channel_signal_responder_close (ch : Channel) : Int × Channel :=
  let ch := { ch with active := false }
  (0, { ch with events := ch.events ++ [.ctrl .toResponder .sigClose 0] })

/-- `fr_channel_responder_ack_close`: flip `active` off and send a `CLOSE`
control message whose `ack` field is `TO_REQUESTOR` (1). -/
def fr_channel_responder_ack_close (ch : Channel) : Int × Channel :=
  let ch := { ch with active := false }
  (0, { ch with events := ch.events ++ [.ctrl .toRequestor .sigClose 1] })

/-- The five data-path operations of the claims, as a single step alphabet. -/
inductive Op where
  | send_request (cd : Desc)
  | send_reply (cd : Desc)
  | null_reply
  | recv_request
  | recv_reply

/-- Apply one data-path operation; recv results are encoded as 1/0. -/
def applyOp (ch : Channel) : Op → Option (Int × Channel)
  | .send_request cd => fr_channel_send_request ch cd
  | .send_reply cd => fr_channel_send_reply ch cd
  | .null_reply => some (fr_channel_null_reply ch)
  | .recv_request =>
    (fr_channel_recv_request ch).map (fun p => (if p.1 then 1 else 0, p.2))
  | .recv_reply =>
    (fr_channel_recv_reply ch).map (fun p => (if p.1 then 1 else 0, p.2))

/-- Channel states reachable from creation by the five data-path operations
(operations whose `rad_assert` guards fail do not step). -/
inductive Reach : Channel → Prop where
  | create (same : Bool) (now : Nat) : Reach (fr_channel_create same now)
  | step {ch : Channel} (op : Op) (r : Int) {ch' : Channel} :
      Reach ch → applyOp ch op = some (r, ch') → Reach ch'

/-- Requestor-end invariant of claim C3 (amended): on the `TO_RESPONDER`
end — the end owned by the requestor — `ack ≤ sequence`. -/
def ReqInv (ch : Channel) : Prop :=
  ch.endToResponder.ack ≤ ch.endToResponder.sequence

end Chan

/-- The channel state after one `fr_channel_send_request`. -/
def c3chan1 : Chan.Channel :=
  match Chan.applyOp (Chan.fr_channel_create false 0)
      (.send_request ⟨0, 0, 0, 0, 0⟩) with
  | some (_, c) => c
  | none => Chan.fr_channel_create false 0

/-- The channel state after `fr_channel_send_request` then
`fr_channel_recv_request`. -/
def c3chan2 : Chan.Channel :=
  match Chan.applyOp c3chan1 .recv_request with
  | some (_, c) => c
  | none => c3chan1

/-- The channel state right after `fr_channel_signal_responder_close` on a
fresh cross-thread channel. -/
def c4chan : Chan.Channel :=
  (Chan.fr_channel_signal_responder_close (Chan.fr_channel_create false 0)).2

/-- The channel state after the send of `channel_send_ema_update_witness`. -/
def c7chan : Chan.Channel :=
  match Chan.fr_channel_send_request (Chan.fr_channel_create false 0)
      ⟨8, 0, 0, 0, 0⟩ with
  | some (_, c) => c
  | none => Chan.fr_channel_create false 0

/-! ## The Leftmost Skeleton Tree (src/lib/util/lst.c)

Model of `fr_lst_t` in the revision that uses a Lomuto partition, has no
`lst_reduce_indices`, and supports `fr_lst_extract(lst, NULL)` as a pop.

Element pointers (`void *`) are modelled as `Nat` addresses, with 0 playing
the role of NULL.  The element array `p` is a trie keyed by the reduced
(physical) index; the back-index that `item_index()` reads and writes at
`lst->offset` inside each element is a trie keyed by the element's address.
`int32_t` quantities are modelled as `Int` (no overflow modelling; stack
depths and stack indices, which are non-negative in every execution that the
theorems speak about, are `Nat`).  `reduce`'s bit-mask is `Int.emod` (equal
on powers of two).  `talloc_realloc` is modelled as succeeding.  Reading a
slot that was never written yields the model's junk default (0 / NULL), as C
yields indeterminate bytes. -/

namespace LstC

/-- Element pointers; 0 is NULL. -/
abbrev Addr := Nat

/-- `pivot_stack_t`.  `data` keeps popped (stale) entries, as C memory does. -/
structure PivotStack where
  depth : Nat
  size : Nat
  data : NTree Int
deriving DecidableEq

/-- `struct fr_lst_s`.  The `rand_ctx` PRNG is external (`util/rand`); it is
modelled as an oracle stream `rnd` passed to the operations together with the
draw counter `rc` kept in the state (one draw per `fr_fast_rand` call). -/
structure Lst where
  capacity : Int
  idx : Int
  num_elements : Int
  p : NTree Addr
  back : NTree Int
  s : PivotStack
  rc : Nat
deriving DecidableEq

/-- `INITIAL_CAPACITY`. -/
def INITIAL_CAPACITY : Int := 2048

/-- `INITIAL_STACK_CAPACITY`. -/
def INITIAL_STACK_CAPACITY : Nat := 32

/-- `stack_alloc`. -/
def stack_alloc : PivotStack :=
  { depth := 0, size := INITIAL_STACK_CAPACITY, data := .nil }

/-- `stack_push`; `talloc_realloc` on a full stack is modelled as
succeeding, so the doubling always happens and the push always stores. -/
def stack_push (s : PivotStack) (pivot : Int) : PivotStack :=
  let s := if s.depth = s.size then { s with size := 2 * s.size } else s
  { s with data := s.data.set s.depth pivot, depth := s.depth + 1 }

/-- `stack_pop`. -/
def stack_pop (s : PivotStack) (n : Nat) : PivotStack :=
  { s with depth := s.depth - n }

/-- `stack_depth`. -/
def stack_depth (s : PivotStack) : Nat := s.depth

/-- `stack_item` (reads beyond `depth` return whatever the memory holds:
stale entries survive pops, never-written slots read the junk default). -/
def stack_item (s : PivotStack) (i : Nat) : Int := (s.data.get i).getD 0

/-- `stack_set`. -/
def stack_set (s : PivotStack) (i : Nat) (v : Int) : PivotStack :=
  { s with data := s.data.set i v }

/-- The `reduce` macro: `(_index) & ((_lst)->capacity - 1)`, i.e. `emod` for
a power-of-two capacity. -/
def reduce (lst : Lst) (i : Int) : Int := i.emod lst.capacity

/-- The `item` macro: `lst->p[reduce(lst, _index)]`. -/
def item (lst : Lst) (i : Int) : Addr := (lst.p.get (reduce lst i).toNat).getD 0

/-- The `item_index` macro: the back-index stored inside the element. -/
def item_index (lst : Lst) (d : Addr) : Int := (lst.back.get d).getD 0

/-- The `equivalent` macro: `reduce(lst, i - j) == 0`. -/
def equivalent (lst : Lst) (i j : Int) : Prop := reduce lst (i - j) = 0

instance (lst : Lst) (i j : Int) : Decidable (equivalent lst i j) := by
  unfold equivalent; infer_instance

/-- `fr_fast_rand` (external PRNG modelled as an oracle stream; values are
reduced into `uint32_t` range). -/
def fr_fast_rand (rnd : Nat → Nat) (lst : Lst) : Nat × Lst :=
  (rnd lst.rc % 4294967296, { lst with rc := lst.rc + 1 })

/-- `_fr_lst_alloc` (allocation succeeds; the initial `stack_push(s, 0)`
seeds the fictitious pivot). -/
def fr_lst_alloc : Lst :=
  { capacity := INITIAL_CAPACITY, idx := 0, num_elements := 0,
    p := .nil, back := .nil, s := stack_push stack_alloc 0, rc := 0 }

/-- `lst_length`. -/
def lst_length (lst : Lst) (stack_index : Nat) : Int :=
  (stack_depth lst.s : Int) - (stack_index : Int)

/-- The `is_bucket` macro. -/
def is_bucket (lst : Lst) (stack_index : Nat) : Prop :=
  lst_length lst stack_index = 1

instance (lst : Lst) (stack_index : Nat) : Decidable (is_bucket lst stack_index) := by
  unfold is_bucket; infer_instance

/-- `lst_size`. -/
def lst_size (lst : Lst) (stack_index : Nat) : Int :=
  if stack_index = 0 then lst.num_elements
  else
    let reduced_right := reduce lst (stack_item lst.s stack_index)
    let reduced_idx := reduce lst lst.idx
    if reduced_idx ≤ reduced_right then reduced_right - reduced_idx
    else (lst.capacity - reduced_idx) + reduced_right

/-- `lst_flatten`. -/
def lst_flatten (lst : Lst) (stack_index : Nat) : Lst :=
  { lst with s := stack_pop lst.s (stack_depth lst.s - stack_index) }

/-- `lst_move` (the NULL check returns early without moving; every caller
ignores the return value). -/
def lst_move (lst : Lst) (location : Int) (data : Addr) : Lst :=
  if data = 0 then lst
  else { lst with
    p := lst.p.set (reduce lst location).toNat data
    back := lst.back.set data (reduce lst location) }

/-- The loop of `bucket_add` over `rindex < stack_index` (the last argument
is the remaining iteration count). -/
def bucketAddLoop (lst : Lst) (rindex : Nat) : Nat → Lst
  | 0 => lst
  | k + 1 =>
    let prev_pivot_index := stack_item lst.s (rindex + 1)
    let new_space := stack_item lst.s rindex
    let empty_bucket := new_space - prev_pivot_index = 1
    let lst := { lst with s := stack_set lst.s rindex (new_space + 1) }
    let lst := if empty_bucket then lst
      else lst_move lst new_space (item lst (prev_pivot_index + 1))
    let lst := lst_move lst (prev_pivot_index + 1) (item lst prev_pivot_index)
    bucketAddLoop lst (rindex + 1) k

/-- `bucket_add`. -/
def bucket_add (lst : Lst) (stack_index : Nat) (data : Addr) : Lst :=
  let lst := bucketAddLoop lst 0 stack_index
  let new_space := stack_item lst.s stack_index
  let lst := { lst with s := stack_set lst.s stack_index (new_space + 1) }
  let lst := lst_move lst new_space data
  { lst with num_elements := lst.num_elements + 1 }

/-- The stack-rewriting loop of `lst_expand` (`old_idx` is the value
`lst->idx` holds throughout the loop). -/
def expandStackLoop (reduced_idx old_idx : Int) : Lst → Nat → Nat → Lst
  | lst, _, 0 => lst
  | lst, i, k + 1 =>
    let lst := { lst with
      s := stack_set lst.s i (reduced_idx + stack_item lst.s i - old_idx) }
    expandStackLoop reduced_idx old_idx lst (i + 1) k

/-- The element-moving loop of `lst_expand`. -/
def expandMoveLoop (old_capacity : Int) : Lst → Int → Nat → Lst
  | lst, _, 0 => lst
  | lst, i, k + 1 =>
    let to_be_moved := item lst i
    let new_index := item_index lst to_be_moved + old_capacity
    let lst := lst_move lst new_index to_be_moved
    expandMoveLoop old_capacity lst (i + 1) k

/-- `lst_expand` (realloc modelled as succeeding). -/
def lst_expand (lst : Lst) : Lst :=
  let old_capacity := lst.capacity
  let reduced_idx := reduce lst lst.idx
  let depth := stack_depth lst.s
  let old_idx := lst.idx
  let lst := { lst with capacity := 2 * lst.capacity }
  let lst := expandStackLoop reduced_idx old_idx lst 0 depth
  let lst := { lst with idx := reduced_idx }
  expandMoveLoop old_capacity lst 0 reduced_idx.toNat

/-- The descent loop of `fr_lst_insert` (fuel-recursive; the fuel
`stack_depth + 1` always suffices because `stack_index` stops at the top). -/
def insertLoop (cmp : Addr → Addr → Int) (rnd : Nat → Nat) (data : Addr) :
    Lst → Nat → Nat → Nat × Lst
  | lst, stack_index, 0 => (stack_index, lst)
  | lst, stack_index, fuel + 1 =>
    if is_bucket lst stack_index then (stack_index, lst)
    else if stack_index = 0 then
      if cmp data (item lst (stack_item lst.s (stack_index + 1))) ≥ 0 then
        (stack_index, lst)
      else insertLoop cmp rnd data lst (stack_index + 1) fuel
    else
      let (r, lst) := fr_fast_rand rnd lst
      if r % (lst_size lst stack_index + 1).toNat = 0 then
        (stack_index, lst_flatten lst stack_index)
      else if cmp data (item lst (stack_item lst.s (stack_index + 1))) ≥ 0 then
        (stack_index, lst)
      else insertLoop cmp rnd data lst (stack_index + 1) fuel

/-- `fr_lst_insert` (returns 0; the -1 path is expansion failure, and
allocation is modelled as succeeding). -/
def fr_lst_insert (cmp : Addr → Addr → Int) (rnd : Nat → Nat) (lst : Lst)
    (data : Addr) : Int × Lst :=
  let lst := if lst.num_elements = lst.capacity then lst_expand lst else lst
  let (stack_index, lst) := insertLoop cmp rnd data lst 0 (stack_depth lst.s + 1)
  (0, bucket_add lst stack_index data)

/-- `bucket_lwb`. -/
def bucket_lwb (lst : Lst) (stack_index : Nat) : Int :=
  if is_bucket lst stack_index then lst.idx
  else stack_item lst.s (stack_index + 1) + 1

/-- `bucket_upb`. -/
def bucket_upb (lst : Lst) (stack_index : Nat) : Int :=
  stack_item lst.s stack_index - 1

/-- The Lomuto loop of `partition`: `for (j = low; j < high; j++)`; returns
the final `i`.  The last argument is the remaining iteration count. -/
def lomutoLoop (cmp : Addr → Addr → Int) (pivot : Addr) :
    Lst → Int → Int → Nat → Lst × Int
  | lst, i, _, 0 => (lst, i)
  | lst, i, j, k + 1 =>
    if cmp (item lst j) pivot < 0 then
      let i := i + 1
      let temp := item lst i
      let lst := lst_move lst i (item lst j)
      let lst := lst_move lst j temp
      lomutoLoop cmp pivot lst i (j + 1) k
    else lomutoLoop cmp pivot lst i (j + 1) k

/-- `partition` (Lomuto variant of this revision): pick the pivot at a
random index, move it to `high`, partition `[low, high)`, then place the
pivot at the split point `i` and push `i`. -/
def partition (cmp : Addr → Addr → Int) (rnd : Nat → Nat) (lst : Lst)
    (stack_index : Nat) : Lst :=
  let low := bucket_lwb lst stack_index
  let high := bucket_upb lst stack_index
  let (r, lst) := fr_fast_rand rnd lst
  let pivot_index := low + ((r % (high + 1 - low).toNat : Nat) : Int)
  let pivot := item lst pivot_index
  let lst := if pivot_index ≠ high then
      let lst := lst_move lst pivot_index (item lst high)
      lst_move lst high pivot
    else lst
  let li := lomutoLoop cmp pivot lst (low - 1) low (high - low).toNat
  let lst := li.1
  let i := li.2 + 1
  let lst := lst_move lst high (item lst i)
  let lst := lst_move lst i pivot
  { lst with s := stack_push lst.s i }

/-- The pivot-stack scan
`for (stack_index = stack_depth(lst->s); stack_item(lst->s, --stack_index) < location; ) ;`
shared by `bucket_delete` and `fr_lst_extract`: starting below the given
index, find the first slot (from the top) whose entry is `≥ location`.
Note that it compares raw (virtual) stack entries against a *reduced*
location.  Running below slot 0 would be out-of-bounds in C; the model
returns 0 there. -/
def findBucket (lst : Lst) (location : Int) : Nat → Nat
  | 0 => 0
  | si + 1 => if stack_item lst.s si < location then findBucket lst location si else si

/-- The peeling loop of `bucket_delete` (`stack_index` descending to 0). -/
def peelLoop (lst : Lst) (location : Int) : Nat → Lst
  | 0 =>
    let top := bucket_upb lst 0
    let lst := if ¬ equivalent lst location top then
        lst_move lst location (item lst top) else lst
    { lst with s := stack_set lst.s 0 top }
  | si + 1 =>
    let top := bucket_upb lst (si + 1)
    let lst := if ¬ equivalent lst location top then
        lst_move lst location (item lst top) else lst
    let lst := { lst with s := stack_set lst.s (si + 1) top }
    let lst := lst_move lst top (item lst (top + 1))
    peelLoop lst (top + 1) si

/-- `bucket_delete` (this revision has no wrap normalisation: the `idx`
fast path only increments). -/
def bucket_delete (lst : Lst) (data : Addr) : Lst :=
  let location := item_index lst data
  let lst :=
    if equivalent lst location lst.idx then { lst with idx := lst.idx + 1 }
    else
      let si := findBucket lst location (stack_depth lst.s)
      peelLoop lst location si
  let lst := { lst with num_elements := lst.num_elements - 1 }
  { lst with back := lst.back.set data (-1) }

/-- The iteration of `find_empty_left`'s do/while loop (fuel-recursive;
`num_elements + 2` suffices because the top pivot's distance from `idx`
strictly decreases). -/
def felLoop (cmp : Addr → Addr → Int) (rnd : Nat → Nat) : Lst → Nat → Nat → Nat × Lst
  | lst, stack_index, 0 => (stack_index, lst)
  | lst, stack_index, fuel + 1 =>
    let lst := if is_bucket lst stack_index then partition cmp rnd lst stack_index else lst
    let stack_index := stack_index + 1
    if lst_size lst stack_index > 0 then felLoop cmp rnd lst stack_index fuel
    else (stack_index, lst)

/-- `find_empty_left`. -/
def find_empty_left (cmp : Addr → Addr → Int) (rnd : Nat → Nat) (lst : Lst) :
    Nat × Lst :=
  felLoop cmp rnd lst 0 (lst.num_elements.toNat + 2)

/-- `fr_lst_peek` (it runs `find_empty_left`, so it mutates the tree). -/
def fr_lst_peek (cmp : Addr → Addr → Int) (rnd : Nat → Nat) (lst : Lst) :
    Option Addr × Lst :=
  if lst.num_elements = 0 then (none, lst)
  else
    let (stack_index, lst) := find_empty_left cmp rnd lst
    (some (item lst (stack_item lst.s stack_index)), lst)

/-- `fr_lst_pop`. -/
def fr_lst_pop (cmp : Addr → Addr → Int) (rnd : Nat → Nat) (lst : Lst) :
    Option Addr × Lst :=
  if lst.num_elements = 0 then (none, lst)
  else
    let (stack_index, lst) := find_empty_left cmp rnd lst
    let location := stack_item lst.s stack_index
    let min := item lst location
    let lst := lst_flatten lst stack_index
    let lst := bucket_delete lst min
    (some min, lst)

/-- `fr_lst_extract`; `extract(lst, NULL)` pops and discards. -/
def fr_lst_extract (cmp : Addr → Addr → Int) (rnd : Nat → Nat) (lst : Lst)
    (data : Option Addr) : Int × Lst :=
  match data with
  | none =>
    let (v, lst) := fr_lst_pop cmp rnd lst
    (if v.isSome then 1 else -1, lst)
  | some d =>
    if lst.num_elements = 0 then (-1, lst)
    else
      let location := item_index lst d
      if location < 0 then (-1, lst)
      else
        let si := findBucket lst location (stack_depth lst.s)
        let lst := if stack_item lst.s si = location then lst_flatten lst si else lst
        (1, bucket_delete lst d)

/-- `fr_lst_num_elements`. -/
def fr_lst_num_elements (lst : Lst) : Int := lst.num_elements

/-- Pop repeatedly (at most the given fuel) until the LST reports empty,
collecting the popped elements in order. -/
def popAllLoop (cmp : Addr → Addr → Int) (rnd : Nat → Nat) : Lst → Nat → List Addr
  | _, 0 => []
  | lst, k + 1 =>
    match fr_lst_pop cmp rnd lst with
    | (none, _) => []
    | (some a, lst) => a :: popAllLoop cmp rnd lst k

/-- "Repeatedly calling `fr_lst_pop` until the LST is empty". -/
def fr_lst_pop_all (cmp : Addr → Addr → Int) (rnd : Nat → Nat) (lst : Lst) :
    List Addr :=
  popAllLoop cmp rnd lst lst.num_elements.toNat

/-! ### Closed forms for stores

`NTree.set` sends the key through the same parity path as `NTree.get`, so
the keys reachable inside a subtree form an affine progression
`a * j + b` (`a` doubles on each descent).  `keyTree g bound d a b` is the
closed form of the subtree at `(a, b)` of a store holding `g k` at every
key `k < bound`: a node exists exactly when its minimal key `b` is below
`bound`. -/

def keyTree {α : Type} (g : Nat → Option α) (bound : Nat) : Nat → Nat → Nat → NTree α
  | 0, _, _ => .nil
  | d + 1, a, b =>
    if b < bound then
      .node (g b) (keyTree g bound d (2 * a) (a + b))
        (keyTree g bound d (2 * a) (2 * a + b))
    else .nil

/-! ### A concrete build driving `fr_lst_insert` / `fr_lst_extract` / `fr_lst_pop`

Elements are the addresses `1..2048` plus `5000`/`5001`; `cexKey` is the
priority the comparator sorts by. -/

/-- Priorities of the elements taking part in the run. -/
def cexKey (a : Addr) : Nat :=
  if a = 2041 then 10 else if a = 2042 then 11 else if a = 2043 then 12
  else if a = 2044 then 20 else if a = 2045 then 21 else if a = 2046 then 22
  else if a = 2047 then 23 else if a = 2048 then 24
  else if a = 5000 then 30 else if a = 5001 then 31 else 0

/-- A totally ordinary comparator: compare priorities. -/
def cexCmp (a b : Addr) : Int :=
  if cexKey a < cexKey b then -1 else if cexKey b < cexKey a then 1 else 0

/-- The PRNG oracle: first draw 2, then 0 forever (any stream would do;
this one is fixed so the run is reproducible). -/
def cexRnd (n : Nat) : Nat := if n = 0 then 2 else 0

/-- One call of the public LST interface. -/
inductive BOp where
  | ins (a : Addr)
  | ext (a : Addr)
  | extNull
deriving DecidableEq

/-- Perform one call (dropping return codes, as a caller building a queue
does). -/
def runBOp (cmp : Addr → Addr → Int) (rnd : Nat → Nat) (lst : Lst) : BOp → Lst
  | .ins a => (fr_lst_insert cmp rnd lst a).2
  | .ext a => (fr_lst_extract cmp rnd lst (some a)).2
  | .extNull => (fr_lst_extract cmp rnd lst none).2

/-- Perform a sequence of calls. -/
def runBuild (cmp : Addr → Addr → Int) (rnd : Nat → Nat) (lst : Lst)
    (ops : List BOp) : Lst :=
  ops.foldl (runBOp cmp rnd)  lst

/-- `count` inserts of consecutive addresses starting at `start`. -/
def insOps (start count : Nat) : List BOp :=
  (List.range count).map (fun i => .ins (start + i))

/-- `count` extracts of consecutive addresses starting at `start`. -/
def extOps (start count : Nat) : List BOp :=
  (List.range count).map (fun i => .ext (start + i))

/-- Slot store contents during the filling phase: slot `m` holds address
`m + 1`. -/
def gSlots : Nat → Option Addr := fun m => some (m + 1)

/-- Back-index contents: address `a` sits at slot `a - 1`, or `-1` once the
first `e` addresses have been extracted (address 0 is NULL and never
written). -/
def gBack (e : Nat) : Nat → Option Int :=
  fun a => if a = 0 then none else if a ≤ e then some (-1) else some ((a : Int) - 1)

/-- The LST after inserting addresses `1..c` into a fresh LST. -/
def cexInsState (c : Nat) : Lst :=
  { capacity := 2048, idx := 0, num_elements := (c : Int),
    p := keyTree gSlots c 13 1 0,
    back := keyTree (gBack 0) (if c = 0 then 0 else c + 1) 13 1 0,
    s := { depth := 1, size := 32, data := NTree.nil.set 0 (c : Int) }, rc := 0 }

/-- The LST after additionally extracting addresses `1..e`. -/
def cexExtState (e : Nat) : Lst :=
  { capacity := 2048, idx := (e : Int), num_elements := ((2048 - e : Nat) : Int),
    p := keyTree gSlots 2048 13 1 0,
    back := keyTree (gBack e) 2049 13 1 0,
    s := { depth := 1, size := 32, data := NTree.nil.set 0 2048 }, rc := 0 }

/-- The run: fill to capacity, delete the oldest 2040 elements (advancing
`idx` to 2040), add two more elements (which wrap into slots 0 and 1),
pop once, then extract address 5001. -/
def cexTrace : List BOp :=
  insOps 1 2048 ++ extOps 1 2040 ++ [.ins 5000, .ins 5001, .extNull, .ext 5001]

/-- The LST the run builds. -/
def cexLst : Lst := runBuild cexCmp cexRnd fr_lst_alloc cexTrace

end LstC

/-! ## The quickheap (src/lib/util/quickheap.c)

Same conventions as the LST model.  Reads of heap slots never written
return the `getD` default 0 (the C array holds whatever garbage talloc
left there — copying it around, as `fr_quickheap_insert` does, is
harmless).  Reads of PIVOT-STACK slots never written, and pivot-stack
writes beyond the allocated `size`, are genuine undefined behaviour (the
value feeds the comparator and the write corrupts the heap), so the
operations return `none` there. -/

namespace Qh

abbrev Addr := Nat

/-- `pivot_stack_t` (entries are `uint32_t`). -/
structure PivotStack where
  depth : Nat
  size : Nat
  data : NTree Nat
deriving DecidableEq

/-- `struct fr_quickheap_s`; as for the LST, the `rand_ctx` PRNG is an
oracle stream `rnd` given to the operations, with the draw counter `rc`
in the state. -/
structure Quickheap where
  capacity : Nat
  idx : Nat
  heap : NTree Addr
  s : PivotStack
  rc : Nat
deriving DecidableEq

/-- `INITIAL_CAPACITY`. -/
def INITIAL_CAPACITY : Nat := 2048

/-- `INITIAL_STACK_CAPACITY`. -/
def INITIAL_STACK_CAPACITY : Nat := 32

/-- `stack_alloc`. -/
def stack_alloc : PivotStack :=
  { depth := 0, size := INITIAL_STACK_CAPACITY, data := .nil }

/-- `stack_push`: `s->data[s->depth++] = pivot`.  The code does not extend
the array (its comment reads `todo: try to extend if it's full`), so when
`depth = size` the store is out of the allocated bounds: `none`. -/
def stack_push (s : PivotStack) (pivot : Nat) : Option PivotStack :=
  if s.depth < s.size then
    some { s with data := s.data.set s.depth pivot, depth := s.depth + 1 }
  else none

/-- `stack_top`: reads `data[depth - 1]`; reading below a depth-0 stack or
an unwritten slot is undefined. -/
def stack_top (s : PivotStack) : Option Nat :=
  if s.depth = 0 then none else s.data.get (s.depth - 1)

/-- `stack_pop` (`s->depth--`; callers only pop nonempty stacks in the
runs below). -/
def stack_pop (s : PivotStack) : PivotStack := { s with depth := s.depth - 1 }

/-- `stack_depth`. -/
def stack_depth (s : PivotStack) : Nat := s.depth

/-- `stack_item`. -/
def stack_item (s : PivotStack) (i : Nat) : Option Nat := s.data.get i

/-- `stack_set`. -/
def stack_set (s : PivotStack) (i : Nat) (v : Nat) : PivotStack :=
  { s with data := s.data.set i v }

/-- The `heap_sub` macro (read): `qh->heap[n % qh->capacity]`. -/
def heap_sub (qh : Quickheap) (n : Int) : Addr :=
  (qh.heap.get ((n.emod (qh.capacity : Int)).toNat)).getD 0

/-- The `heap_sub` macro (write). -/
def heap_set (qh : Quickheap) (n : Int) (v : Addr) : Quickheap :=
  { qh with heap := qh.heap.set ((n.emod (qh.capacity : Int)).toNat) v }

/-- `fr_fast_rand` (oracle stream, as in the LST model). -/
def fr_fast_rand (rnd : Nat → Nat) (qh : Quickheap) : Nat × Quickheap :=
  (rnd qh.rc % 4294967296, { qh with rc := qh.rc + 1 })

/-- `_fr_quickheap_alloc` (allocation modelled as succeeding; note
`capacity` is set to `INITIAL_CAPACITY + 1` although the array holds
`INITIAL_CAPACITY` entries). -/
def fr_quickheap_alloc : Quickheap :=
  { capacity := INITIAL_CAPACITY + 1, idx := 0, heap := .nil,
    s := { depth := 1, size := INITIAL_STACK_CAPACITY, data := NTree.nil.set 0 0 },
    rc := 0 }

/-- `while (qh->cmp(heap_sub(qh, ++l), pivot) < 0) ;` — returns the final
`l` (fuel-recursive). -/
def scanL (cmp : Addr → Addr → Int) (pivot : Addr) (qh : Quickheap) :
    Int → Nat → Option Int
  | _, 0 => none
  | l, fu + 1 =>
    if cmp (heap_sub qh (l + 1)) pivot < 0 then scanL cmp pivot qh (l + 1) fu
    else some (l + 1)

/-- `while (qh->cmp(heap_sub(qh, --h), pivot) > 0) ;` — returns the final
`h`. -/
def scanH (cmp : Addr → Addr → Int) (pivot : Addr) (qh : Quickheap) :
    Int → Nat → Option Int
  | _, 0 => none
  | h, fu + 1 =>
    if cmp (heap_sub qh (h - 1)) pivot > 0 then scanH cmp pivot qh (h - 1) fu
    else some (h - 1)

/-- The swap loop of `partition`. -/
def partLoop (cmp : Addr → Addr → Int) (pivot : Addr) :
    Quickheap → Int → Int → Nat → Option (Quickheap × Int)
  | _, _, _, 0 => none
  | qh, l, h, fu + 1 => do
    let l ← scanL cmp pivot qh l (qh.capacity + 2)
    let h ← scanH cmp pivot qh h (qh.capacity + 2)
    if l ≥ h then some (qh, h)
    else
      let tv := heap_sub qh l
      let hv := heap_sub qh h
      partLoop cmp pivot (heap_set (heap_set qh l hv) h tv) l h fu

/-- `partition`. -/
def partition (cmp : Addr → Addr → Int) (qh : Quickheap) (pivot : Addr)
    (low high : Int) : Option (Quickheap × Int) :=
  partLoop cmp pivot qh (low - 1) (high + 1) (qh.capacity + 2)

/-- `incremental_quicksort` (fuel-recursive on the pivot pushes). -/
def iqLoop (cmp : Addr → Addr → Int) (rnd : Nat → Nat) :
    Quickheap → Nat → Option Quickheap
  | _, 0 => none
  | qh, fu + 1 => do
    let top ← stack_top qh.s
    if qh.idx = top then some qh
    else
      let (r, qh) := fr_fast_rand rnd qh
      let pidx : Int := (qh.idx : Int) + ((r % (top - qh.idx) : Nat) : Int)
      let pv := heap_sub qh pidx
      let ph ← partition cmp qh pv (qh.idx : Int) ((top : Int) - 1)
      let s2 ← stack_push ph.1.s (ph.2.emod (2 ^ 32)).toNat
      iqLoop cmp rnd { ph.1 with s := s2 } fu

/-- `incremental_quicksort`. -/
def incremental_quicksort (cmp : Addr → Addr → Int) (rnd : Nat → Nat)
    (qh : Quickheap) : Option Quickheap :=
  iqLoop cmp rnd qh (qh.capacity + 2)

/-- `fr_quickheap_peek` (no empty check; the code comment reads
`todo: fr_quickheap_{peek, pop}(): return NULL if quickheap is empty`). -/
def fr_quickheap_peek (cmp : Addr → Addr → Int) (rnd : Nat → Nat)
    (qh : Quickheap) : Option (Addr × Quickheap) := do
  let qh ← incremental_quicksort cmp rnd qh
  some (heap_sub qh (qh.idx : Int), qh)

/-- `fr_quickheap_pop` (no empty check either). -/
def fr_quickheap_pop (cmp : Addr → Addr → Int) (rnd : Nat → Nat)
    (qh : Quickheap) : Option (Addr × Quickheap) := do
  let qh ← incremental_quicksort cmp rnd qh
  let qh := { qh with idx := qh.idx + 1, s := stack_pop qh.s }
  some (heap_sub qh ((qh.idx : Int) - 1), qh)

/-- `uint32_t` subtraction (wraps). -/
def u32sub (a b : Nat) : Nat := (a + 4294967296 - b % 4294967296) % 4294967296

/-- The insert loop of `fr_quickheap_insert`; breaks with the final
`pidx`.  The guard reads `stack_item(qh->s, pidx + 1)` before checking
that slot was ever written. -/
def qhInsLoop (cmp : Addr → Addr → Int) (data : Addr) :
    Quickheap → Nat → Nat → Option (Quickheap × Nat)
  | _, _, 0 => none
  | qh, pidx, fu + 1 => do
    let pivot ← stack_item qh.s pidx
    let qh := heap_set qh ((pivot : Int) + 1) (heap_sub qh (pivot : Int))
    let qh := { qh with s := stack_set qh.s pidx (pivot + 1) }
    if stack_depth qh.s = pivot + 1 then some (qh, pidx)
    else do
      let nxt ← stack_item qh.s (pidx + 1)
      if cmp (heap_sub qh (nxt : Int)) data ≤ 0 then some (qh, pidx)
      else do
        let nxt2 ← stack_item qh.s (pidx + 1)
        let qh := heap_set qh ((u32sub pivot 1 : Nat) : Int)
          (heap_sub qh ((nxt2 : Int) + 1))
        qhInsLoop cmp data qh (pidx + 1) fu

/-- `fr_quickheap_insert`. -/
def fr_quickheap_insert (cmp : Addr → Addr → Int) (qh : Quickheap)
    (data : Addr) : Option Quickheap := do
  let (qh, pidx) ← qhInsLoop cmp data qh 0 (stack_depth qh.s + 1)
  let fin ← stack_item qh.s pidx
  some (heap_set qh ((fin : Int) - 1) data)

/-- `fr_quickheap_num_elements` (`uint32_t` comparison and subtraction). -/
def fr_quickheap_num_elements (qh : Quickheap) : Option Nat := do
  let heap_end ← stack_item qh.s 0
  if heap_end ≥ qh.idx then some (heap_end - qh.idx)
  else some (qh.capacity - (qh.idx - heap_end))

end Qh

/-- An ordinary comparator on the element addresses themselves. -/
def cmpAddr (a b : Nat) : Int := if a < b then -1 else if b < a then 1 else 0

/-- A PRNG oracle stream that always yields 0. -/
def rndZero : Nat → Nat := fun _ => 0

/-- A pivot stack filled to its allocated capacity (depth 32 = size 32). -/
def qhFullStack : Qh.PivotStack :=
  { depth := 32, size := 32,
    data := (List.range 32).foldl (fun t i => t.set i i) .nil }

/-- The same stack on the LST side. -/
def lstFullStack : LstC.PivotStack :=
  { depth := 32, size := 32,
    data := (List.range 32).foldl (fun t i => t.set i (i : Int)) .nil }

/-! ## The other lst.c revision (src/unnamed/part_000)

This revision shares `struct fr_lst_s`, the pivot stack, `reduce`,
`item`, `item_index`, `equivalent`, the bucket bounds, `lst_move`,
`lst_flatten`, `stack_push` and the peeling loop of `bucket_delete` with
the revision modelled in `LstC`; it differs in `partition` (Hoare instead
of Lomuto, with back-index pivot recovery), in `bucket_delete`'s `idx`
fast path (wrap normalisation via `lst_reduce_indices`), and in having
`lst_reduce_indices` at all.  The shared definitions are reused from
`LstC`; this namespace defines the functions particular to this
revision. -/

namespace LstH

open LstC (Lst PivotStack Addr reduce item item_index equivalent is_bucket
  lst_length lst_size stack_item stack_set stack_push stack_pop stack_depth
  lst_move lst_flatten bucket_lwb bucket_upb)

/-- The loop of `lst_reduce_indices` (`old_idx` is `lst->idx`, constant
through the loop; the last argument is the remaining iteration count). -/
def reduceLoop (reduced_idx old_idx : Int) : Lst → Nat → Nat → Lst
  | lst, _, 0 => lst
  | lst, i, k + 1 =>
    reduceLoop reduced_idx old_idx
      { lst with s := stack_set lst.s i (reduced_idx + stack_item lst.s i - old_idx) }
      (i + 1) k

/-- `lst_reduce_indices`. -/
def lst_reduce_indices (lst : Lst) : Lst :=
  let reduced_idx := reduce lst lst.idx
  let depth := stack_depth lst.s
  let lst := reduceLoop reduced_idx lst.idx lst 0 depth
  { lst with idx := reduced_idx }

/-- `while (lst->cmp(item(lst, --h), pivot) > 0) ;` — the decrementing
scan of the Hoare partition, fuel-recursive; `none` means the fuel ran
out. -/
def scanDown (cmp : Addr → Addr → Int) (pivot : Addr) (lst : Lst) :
    Int → Nat → Option Int
  | _, 0 => none
  | h, fu + 1 =>
    if cmp (item lst (h - 1)) pivot > 0 then scanDown cmp pivot lst (h - 1) fu
    else some (h - 1)

/-- `while (lst->cmp(item(lst, ++l), pivot) < 0) ;` — the incrementing
scan. -/
def scanUp (cmp : Addr → Addr → Int) (pivot : Addr) (lst : Lst) :
    Int → Nat → Option Int
  | _, 0 => none
  | l, fu + 1 =>
    if cmp (item lst (l + 1)) pivot < 0 then scanUp cmp pivot lst (l + 1) fu
    else some (l + 1)

/-- The swap loop of the Hoare partition; returns the state and the final
`l` and `h`. -/
def hoareLoop (cmp : Addr → Addr → Int) (pivot : Addr) :
    Lst → Int → Int → Nat → Option (Lst × Int × Int)
  | _, _, _, 0 => none
  | lst, l, h, fu + 1 =>
    match scanDown cmp pivot lst h (lst.capacity.toNat + 2) with
    | none => none
    | some h =>
      match scanUp cmp pivot lst l (lst.capacity.toNat + 2) with
      | none => none
      | some l =>
        if l ≥ h then some (lst, l, h)
        else
          let temp := item lst l
          let lst := lst_move lst l (item lst h)
          let lst := lst_move lst h temp
          hoareLoop cmp pivot lst l h fu

/-- The tail of `partition` after the Hoare loop (its `lst` and `h` are
the loop's final state and split point): recover the pivot's virtual
index from its back-index, move the pivot to the split point `h` (bumping
`h` when the pivot sits to its right), and push `h`. -/
def partitionFinish (low high : Int) (pivot : Addr) (lst : Lst) (h : Int) : Lst :=
  let pi0 := item_index lst pivot
  let pivot_index := if pi0 ≥ reduce lst low then low + pi0 - reduce lst low
    else high - (reduce lst high - pi0)
  let moved1 := if pivot_index < h then
      lst_move (lst_move lst pivot_index (item lst h)) h pivot
    else lst
  let hfin := if pivot_index > h then h + 1 else h
  let moved2 := if pivot_index > h then
      lst_move (lst_move moved1 pivot_index (item moved1 hfin)) hfin pivot
    else moved1
  { moved2 with s := stack_push moved2.s hfin }

/-- `partition` (this revision): trivial single-element bucket pushed
directly; otherwise pick a random pivot, move it to `low`, run the Hoare
partition, and finish via `partitionFinish`. -/
def partition (cmp : Addr → Addr → Int) (rnd : Nat → Nat) (lst : Lst)
    (stack_index : Nat) : Option Lst :=
  let low := bucket_lwb lst stack_index
  let high := bucket_upb lst stack_index
  if equivalent lst low high then some { lst with s := stack_push lst.s low }
  else
    let r := LstC.fr_fast_rand rnd lst
    let lst := r.2
    let pivot_index := low + ((r.1 % (high + 1 - low).toNat : Nat) : Int)
    let pivot := item lst pivot_index
    let lst := if pivot_index ≠ low then
        lst_move (lst_move lst pivot_index (item lst low)) low pivot
      else lst
    (hoareLoop cmp pivot lst (low - 1) (high + 1) (lst.capacity.toNat + 2)).map
      (fun lh => partitionFinish low high pivot lh.1 lh.2.2)

/-- `bucket_delete` (this revision): the `idx` fast path normalises all
indices when the incremented `idx` reduces to 0. -/
def bucket_delete (lst : Lst) (data : Addr) : Lst :=
  let location := item_index lst data
  let lst :=
    if equivalent lst location lst.idx then
      let lst := { lst with idx := lst.idx + 1 }
      if equivalent lst lst.idx 0 then lst_reduce_indices lst else lst
    else
      let si := LstC.findBucket lst location (stack_depth lst.s)
      LstC.peelLoop lst location si
  let lst := { lst with num_elements := lst.num_elements - 1 }
  { lst with back := lst.back.set data (-1) }

end LstH

/-- An LST holding one element (address 7) at the last slot, `idx` 2047:
deleting it exercises the wrap normalisation of `bucket_delete`. -/
def c6lst : LstC.Lst :=
  { capacity := 2048, idx := 2047, num_elements := 1,
    p := NTree.nil.set 2047 7, back := NTree.nil.set 7 2047,
    s := { depth := 1, size := 32, data := NTree.nil.set 0 2048 }, rc := 0 }

/-- A comparator ranking addresses by their decade (so 7 and 8 compare
equal). -/
def cmpDecade (a b : Nat) : Int :=
  if a / 10 < b / 10 then -1 else if b / 10 < a / 10 then 1 else 0

/-- A two-element single-bucket LST holding the equal-ranking elements
7 (slot 0) and 8 (slot 1). -/
def c5lst : LstC.Lst :=
  { capacity := 2048, idx := 0, num_elements := 2,
    p := (NTree.nil.set 0 7).set 1 8, back := (NTree.nil.set 7 0).set 8 1,
    s := { depth := 1, size := 32, data := NTree.nil.set 0 2 }, rc := 0 }

namespace NTree

variable {α : Type}

theorem getF_fuel {fu fu' : Nat} (t : NTree α) (k : Nat) (h : k ≤ fu) (h' : k ≤ fu') :
    getF fu t k = getF fu' t k := by
  induction k using Nat.strong_induction_on generalizing t fu fu' with
  | _ k ih =>
    cases t with
    | nil => simp [getF]
    | node v l r =>
      cases k with
      | zero => cases fu <;> cases fu' <;> simp [getF]
      | succ j =>
        cases fu with
        | zero => omega
        | succ fuu =>
          cases fu' with
          | zero => omega
          | succ fuu' =>
            simp only [getF]
            split
            · exact ih ((j + 1) / 2) (by omega) l (by omega) (by omega)
            · exact ih ((j + 1) / 2 - 1) (by omega) r (by omega) (by omega)

theorem setF_fuel {fu fu' : Nat} (t : NTree α) (k : Nat) (x : α) (h : k ≤ fu)
    (h' : k ≤ fu') : setF fu t k x = setF fu' t k x := by
  induction k using Nat.strong_induction_on generalizing t fu fu' with
  | _ k ih =>
    cases t with
    | nil =>
      cases k with
      | zero => cases fu <;> cases fu' <;> simp [setF]
      | succ j =>
        cases fu with
        | zero => omega
        | succ fuu =>
          cases fu' with
          | zero => omega
          | succ fuu' =>
            simp only [setF]
            split
            · exact congrArg (fun t => NTree.node none t NTree.nil)
                (ih ((j + 1) / 2) (by omega) .nil (by omega) (by omega))
            · exact congrArg (fun t => NTree.node none NTree.nil t)
                (ih ((j + 1) / 2 - 1) (by omega) .nil (by omega) (by omega))
    | node v l r =>
      cases k with
      | zero => cases fu <;> cases fu' <;> simp [setF]
      | succ j =>
        cases fu with
        | zero => omega
        | succ fuu =>
          cases fu' with
          | zero => omega
          | succ fuu' =>
            simp only [setF]
            split
            · exact congrArg (fun t => NTree.node v t r)
                (ih ((j + 1) / 2) (by omega) l (by omega) (by omega))
            · exact congrArg (fun t => NTree.node v l t)
                (ih ((j + 1) / 2 - 1) (by omega) r (by omega) (by omega))

theorem get_nil (k : Nat) : (NTree.nil : NTree α).get k = none := by
  simp [get, getF]

theorem get_node_zero (v : Option α) (l r : NTree α) : (NTree.node v l r).get 0 = v := rfl

theorem get_node_succ (v : Option α) (l r : NTree α) (k : Nat) :
    (NTree.node v l r).get (k + 1) =
      if (k + 1) % 2 = 1 then l.get ((k + 1) / 2) else r.get ((k + 1) / 2 - 1) := by
  show getF (k + 1) (NTree.node v l r) (k + 1) = _
  simp only [getF]
  split
  · exact getF_fuel l ((k + 1) / 2) (by omega) (Nat.le_refl _)
  · exact getF_fuel r ((k + 1) / 2 - 1) (by omega) (Nat.le_refl _)

theorem set_nil_zero (x : α) :
    (NTree.nil : NTree α).set 0 x = .node (some x) .nil .nil := rfl

theorem set_nil_succ (x : α) (k : Nat) :
    (NTree.nil : NTree α).set (k + 1) x =
      if (k + 1) % 2 = 1 then .node none (NTree.nil.set ((k + 1) / 2) x) .nil
      else .node none .nil (NTree.nil.set ((k + 1) / 2 - 1) x) := by
  show setF (k + 1) (NTree.nil : NTree α) (k + 1) x = _
  simp only [setF]
  split
  · rw [setF_fuel (NTree.nil : NTree α) ((k + 1) / 2) x (by omega) (Nat.le_refl _)]
    rfl
  · rw [setF_fuel (NTree.nil : NTree α) ((k + 1) / 2 - 1) x (by omega) (Nat.le_refl _)]
    rfl

theorem set_node_zero (v : Option α) (l r : NTree α) (x : α) :
    (NTree.node v l r).set 0 x = .node (some x) l r := rfl

theorem set_node_succ (v : Option α) (l r : NTree α) (x : α) (k : Nat) :
    (NTree.node v l r).set (k + 1) x =
      if (k + 1) % 2 = 1 then .node v (l.set ((k + 1) / 2) x) r
      else .node v l (r.set ((k + 1) / 2 - 1) x) := by
  show setF (k + 1) (NTree.node v l r) (k + 1) x = _
  simp only [setF]
  split
  · rw [setF_fuel l ((k + 1) / 2) x (by omega) (Nat.le_refl _)]
    rfl
  · rw [setF_fuel r ((k + 1) / 2 - 1) x (by omega) (Nat.le_refl _)]
    rfl

theorem get_set (t : NTree α) (k k' : Nat) (x : α) :
    (t.set k x).get k' = if k = k' then some x else t.get k' := by
  induction k using Nat.strong_induction_on generalizing t k' with
  | _ k ih =>
    match k, k' with
    | 0, 0 =>
      cases t <;> simp [set_nil_zero, set_node_zero, get_node_zero]
    | 0, j + 1 =>
      cases t <;>
        simp [set_nil_zero, set_node_zero, get_node_succ] <;> split <;> simp [get_nil]
    | i + 1, 0 =>
      cases t <;> simp [set_nil_succ, set_node_succ, get_node_zero, get_nil] <;>
        split <;> simp [get_node_zero]
    | i + 1, j + 1 =>
      have hlt1 : (i + 1) / 2 < i + 1 := by omega
      have hlt2 : (i + 1) / 2 - 1 < i + 1 := by omega
      rcases Nat.even_or_odd (i + 1) with he | ho <;>
        rcases Nat.even_or_odd (j + 1) with he' | ho'
      · have h2 : (i + 1) % 2 = 0 := Nat.even_iff.mp he
        have h2' : (j + 1) % 2 = 0 := Nat.even_iff.mp he'
        have hne : ((i + 1) % 2 = 1) = False := by simp [h2]
        have hne' : ((j + 1) % 2 = 1) = False := by simp [h2']
        have hiff : (i + 1 = j + 1) ↔ ((i + 1) / 2 - 1 = (j + 1) / 2 - 1) := by omega
        cases t <;>
          simp only [set_nil_succ, set_node_succ, get_node_succ, hne, hne', if_false,
            reduceIte] <;>
          rw [ih ((i + 1) / 2 - 1) hlt2] <;>
          simp only [hiff] <;>
          (by_cases hd : (i + 1) / 2 - 1 = (j + 1) / 2 - 1 <;> simp [hd, get_nil])
      · have h2 : (i + 1) % 2 = 0 := Nat.even_iff.mp he
        have h2' : (j + 1) % 2 = 1 := Nat.odd_iff.mp ho'
        have hij : ¬ (i + 1 = j + 1) := by omega
        have hne : ((i + 1) % 2 = 1) = False := by simp [h2]
        have hne' : ((j + 1) % 2 = 1) = True := by simp [h2']
        cases t <;>
          simp [set_nil_succ, set_node_succ, get_node_succ, hne, hne', hij, get_nil]
      · have h2 : (i + 1) % 2 = 1 := Nat.odd_iff.mp ho
        have h2' : (j + 1) % 2 = 0 := Nat.even_iff.mp he'
        have hij : ¬ (i + 1 = j + 1) := by omega
        have hne : ((i + 1) % 2 = 1) = True := by simp [h2]
        have hne' : ((j + 1) % 2 = 1) = False := by simp [h2']
        cases t <;>
          simp [set_nil_succ, set_node_succ, get_node_succ, hne, hne', hij, get_nil]
      · have h2 : (i + 1) % 2 = 1 := Nat.odd_iff.mp ho
        have h2' : (j + 1) % 2 = 1 := Nat.odd_iff.mp ho'
        have hne : ((i + 1) % 2 = 1) = True := by simp [h2]
        have hne' : ((j + 1) % 2 = 1) = True := by simp [h2']
        have hiff : (i + 1 = j + 1) ↔ ((i + 1) / 2 = (j + 1) / 2) := by omega
        cases t <;>
          simp only [set_nil_succ, set_node_succ, get_node_succ, hne, hne', if_true,
            reduceIte] <;>
          rw [ih ((i + 1) / 2) hlt1] <;>
          simp only [hiff] <;>
          (by_cases hd : (i + 1) / 2 = (j + 1) / 2 <;> simp [hd, get_nil])

theorem get_set_self (t : NTree α) (k : Nat) (x : α) : (t.set k x).get k = some x := by
  simp [get_set]

theorem get_set_ne (t : NTree α) {k k' : Nat} (x : α) (h : k ≠ k') :
    (t.set k x).get k' = t.get k' := by
  simp [get_set, h]

end NTree

namespace Chan

theorem pair_eq_split {α β : Type} {p : α × β} {a : α} {b : β} (h : p = (a, b)) :
    p.1 = a ∧ p.2 = b := by cases h; exact ⟨rfl, rfl⟩

theorem recv_reply_step {ch : Channel} {b : Bool} {ch' : Channel}
    (h : fr_channel_recv_reply ch = some (b, ch')) :
    (ReqInv ch → ReqInv ch') ∧ ch'.active = ch.active ∧
    ch'.same_thread = ch.same_thread := by
  unfold fr_channel_recv_reply at h
  split at h
  · injection h with h1
    injection h1 with _ h2
    subst h2
    exact ⟨id, rfl, rfl⟩
  · split at h
    case isTrue hg =>
      injection h with h1
      injection h1 with _ h2
      subst h2
      refine ⟨fun _ => ?_, rfl, rfl⟩
      simp only [ReqInv, recvReplyApply]
      exact hg.2.2.1
    case isFalse => exact absurd h (by simp)

theorem recv_request_step {ch : Channel} {b : Bool} {ch' : Channel}
    (h : fr_channel_recv_request ch = some (b, ch')) :
    ch'.endToResponder.ack = ch.endToResponder.ack ∧
    ch'.endToResponder.sequence = ch.endToResponder.sequence ∧
    ch'.active = ch.active ∧ ch'.same_thread = ch.same_thread ∧
    ch'.endToRequestor.message_interval = ch.endToRequestor.message_interval := by
  unfold fr_channel_recv_request at h
  split at h
  · injection h with h1
    injection h1 with _ h2
    subst h2
    exact ⟨rfl, rfl, rfl, rfl, rfl⟩
  · split at h
    · injection h with h1
      injection h1 with _ h2
      subst h2
      simp [recvRequestApply]
    · exact absurd h (by simp)

theorem drainReplies_step {fuel : Nat} {ch ch' : Channel}
    (h : drainReplies fuel ch = some ch') :
    (ReqInv ch → ReqInv ch') ∧ ch'.active = ch.active ∧
    ch'.same_thread = ch.same_thread := by
  induction fuel generalizing ch with
  | zero =>
    injection h with h1
    subst h1
    exact ⟨id, rfl, rfl⟩
  | succ fuel ih =>
    unfold drainReplies at h
    split at h
    · exact absurd h (by simp)
    · rename_i heq
      injection h with h1
      subst h1
      exact recv_reply_step heq
    · rename_i heq
      obtain ⟨hi1, ha1, hs1⟩ := recv_reply_step heq
      obtain ⟨hi2, ha2, hs2⟩ := ih h
      exact ⟨fun hq => hi2 (hi1 hq), ha2.trans ha1, hs2.trans hs1⟩

theorem drainRequests_step {fuel : Nat} {ch ch' : Channel}
    (h : drainRequests fuel ch = some ch') :
    ch'.endToResponder.ack = ch.endToResponder.ack ∧
    ch'.endToResponder.sequence = ch.endToResponder.sequence ∧
    ch'.active = ch.active ∧ ch'.same_thread = ch.same_thread ∧
    ch'.endToRequestor.message_interval = ch.endToRequestor.message_interval := by
  induction fuel generalizing ch with
  | zero =>
    injection h with h1
    subst h1
    exact ⟨rfl, rfl, rfl, rfl, rfl⟩
  | succ fuel ih =>
    unfold drainRequests at h
    split at h
    · exact absurd h (by simp)
    · rename_i heq
      injection h with h1
      subst h1
      exact recv_request_step heq
    · rename_i heq
      obtain ⟨h1, h2, h3, h4, h5⟩ := recv_request_step heq
      obtain ⟨g1, g2, g3, g4, g5⟩ := ih h
      exact ⟨g1.trans h1, g2.trans h2, g3.trans h3, g4.trans h4, g5.trans h5⟩

theorem data_ready_frame (ch : Channel) (when : Nat) (dir : Dir) (sig : Signal) :
    (fr_channel_data_ready ch when dir sig).2.endToResponder.ack =
      ch.endToResponder.ack ∧
    (fr_channel_data_ready ch when dir sig).2.endToResponder.sequence =
      ch.endToResponder.sequence ∧
    (fr_channel_data_ready ch when dir sig).2.active = ch.active ∧
    (fr_channel_data_ready ch when dir sig).2.endToRequestor.message_interval =
      ch.endToRequestor.message_interval ∧
    (fr_channel_data_ready ch when dir sig).2.endToResponder.message_interval =
      ch.endToResponder.message_interval := by
  cases dir <;> simp [fr_channel_data_ready, getEnd, setEnd]

theorem send_request_step {ch : Channel} {cd : Desc} {r : Int} {ch' : Channel}
    (h : fr_channel_send_request ch cd = some (r, ch')) :
    (ReqInv ch → ReqInv ch') ∧ ch'.active = ch.active := by
  unfold fr_channel_send_request at h
  split at h
  · injection h with h1
    injection h1 with _ h2
    subst h2
    exact ⟨id, rfl⟩
  · split at h
    · rw [Option.map_eq_some'] at h
      obtain ⟨c, hc, hpair⟩ := h
      injection hpair with _ h2
      subst h2
      exact (drainReplies_step hc).imp id (fun a => a.1)
    · split at h
      · injection h with h1
        obtain ⟨-, h2⟩ := pair_eq_split h1
        subst h2
        obtain ⟨f1, f2, f3, _, _⟩ := data_ready_frame (sendRequestCommit ch cd _)
          cd.when .toResponder .sigDataToResponder
        refine ⟨fun hq => ?_, by rw [f3]; simp [sendRequestCommit]⟩
        simp only [ReqInv, f1, f2, sendRequestCommit]
        exact Nat.le_succ_of_le hq
      · exact absurd h (by simp)

theorem send_reply_step {ch : Channel} {cd : Desc} {r : Int} {ch' : Channel}
    (h : fr_channel_send_reply ch cd = some (r, ch')) :
    (ReqInv ch → ReqInv ch') ∧ (ch.active = false → ch'.active = false) := by
  unfold fr_channel_send_reply at h
  split at h
  · injection h with h1
    injection h1 with _ h2
    subst h2
    exact ⟨id, fun a => a⟩
  · split at h
    · injection h with h1
      injection h1 with _ h2
      subst h2
      exact ⟨id, fun a => a⟩
    · split at h
      · rw [Option.map_eq_some'] at h
        obtain ⟨c, hc, hpair⟩ := h
        injection hpair with _ h2
        subst h2
        obtain ⟨h1, h2, h3, _, _⟩ := drainRequests_step hc
        exact ⟨fun hq => by simp only [ReqInv, h1, h2]; exact hq,
               fun ha => h3.trans ha⟩
      · split at h
        · split at h
          · exact absurd h (by simp)
          · rename_i ch2 heq
            obtain ⟨h1, h2, h3, _, _⟩ := drainRequests_step heq
            have hcommit1 : ∀ q, (sendReplyCommit ch cd q).endToResponder.ack =
                ch.endToResponder.ack := by intro q; simp [sendReplyCommit]
            have hcommit2 : ∀ q, (sendReplyCommit ch cd q).endToResponder.sequence =
                ch.endToResponder.sequence := by intro q; simp [sendReplyCommit]
            have hcommit3 : ∀ q, (sendReplyCommit ch cd q).active = ch.active := by
              intro q; simp [sendReplyCommit]
            unfold sendReplySignal at h
            split at h
            · injection h with hh1
              obtain ⟨-, hh2⟩ := pair_eq_split hh1
              subst hh2
              obtain ⟨f1, f2, f3, _, _⟩ := data_ready_frame ch2
                cd.when .toRequestor .sigDataDoneResponder
              constructor
              · intro hq
                simp only [ReqInv, f1, f2, h1, h2, hcommit1, hcommit2]
                exact hq
              · intro ha
                rw [f3, h3, hcommit3]
                exact ha
            · split at h
              · injection h with hh1
                obtain ⟨-, hh2⟩ := pair_eq_split hh1
                subst hh2
                exact ⟨fun hq => by
                    simp only [ReqInv, h1, h2, hcommit1, hcommit2]; exact hq,
                  fun ha => by rw [h3, hcommit3]; exact ha⟩
              · split at h
                · injection h with hh1
                  obtain ⟨-, hh2⟩ := pair_eq_split hh1
                  subst hh2
                  obtain ⟨f1, f2, f3, _, _⟩ := data_ready_frame ch2
                    cd.when .toRequestor .sigDataToRequestor
                  constructor
                  · intro hq
                    simp only [ReqInv, f1, f2, h1, h2, hcommit1, hcommit2]
                    exact hq
                  · intro ha
                    rw [f3, h3, hcommit3]
                    exact ha
                · exact absurd h (by simp)
        · exact absurd h (by simp)

theorem applyOp_step {ch : Channel} {op : Op} {r : Int} {ch' : Channel}
    (h : applyOp ch op = some (r, ch')) :
    (ReqInv ch → ReqInv ch') ∧ (ch.active = false → ch'.active = false) := by
  cases op with
  | send_request cd =>
    obtain ⟨h1, h2⟩ := send_request_step h
    exact ⟨h1, fun ha => h2.trans ha⟩
  | send_reply cd => exact send_reply_step h
  | null_reply =>
    simp only [applyOp, fr_channel_null_reply, Option.some.injEq, Prod.mk.injEq] at h
    obtain ⟨_, h2⟩ := h
    subst h2
    exact ⟨id, fun a => a⟩
  | recv_request =>
    simp only [applyOp, Option.map_eq_some'] at h
    obtain ⟨⟨b, chx⟩, hx, hy⟩ := h
    injection hy with _ hy2
    subst hy2
    obtain ⟨h1, h2, h3, _, _⟩ := recv_request_step hx
    exact ⟨fun hq => by simp only [ReqInv, h1, h2]; exact hq, fun ha => h3.trans ha⟩
  | recv_reply =>
    simp only [applyOp, Option.map_eq_some'] at h
    obtain ⟨⟨b, chx⟩, hx, hy⟩ := h
    injection hy with _ hy2
    subst hy2
    obtain ⟨h1, h2, _⟩ := recv_reply_step hx
    exact ⟨h1, fun ha => h2.trans ha⟩

end Chan

/-! ### Channel claim theorems (C3, C4, C7, C10) -/

/-- C3, amended: in every channel state reachable by any sequence of
`send_request`, `send_reply`, `null_reply`, `recv_request` and `recv_reply`
operations, the *requestor* End (`end[TO_RESPONDER]`) has `ack ≤ sequence`.
(The claim as stated — for both Ends — is false; see the counterexample.) -/
theorem channel_requestor_ack_le_sequence (ch : Chan.Channel)
    (h : Chan.Reach ch) :
    ch.endToResponder.ack ≤ ch.endToResponder.sequence := by
  induction h with
  | create same now => simp [Chan.fr_channel_create, Chan.freshEnd]
  | step op r hr happ ih => exact (Chan.applyOp_step happ).1 ih

/-- Witness for `channel_requestor_ack_le_sequence` at the freshly created
channel. -/
theorem channel_requestor_ack_le_sequence_witness :
    (Chan.fr_channel_create false 0).endToResponder.ack ≤
      (Chan.fr_channel_create false 0).endToResponder.sequence :=
  channel_requestor_ack_le_sequence _ (Chan.Reach.create false 0)

/-- C3 counterexample: after a single request is sent and received, the
responder End (`end[TO_REQUESTOR]`) — reachable by the claim's own operation
set — has `ack = 1 > 0 = sequence`, refuting `ack ≤ sequence` for *every*
End. -/
theorem channel_responder_ack_exceeds_sequence :
    Chan.Reach c3chan2 ∧
    c3chan2.endToRequestor.ack = 1 ∧ c3chan2.endToRequestor.sequence = 0 := by
  have h1 : Chan.applyOp (Chan.fr_channel_create false 0)
      (.send_request ⟨0, 0, 0, 0, 0⟩) = some (0, c3chan1) := by decide
  have h2 : Chan.applyOp c3chan1 .recv_request = some (1, c3chan2) := by decide
  exact ⟨Chan.Reach.step .recv_request 1
    (Chan.Reach.step (.send_request ⟨0, 0, 0, 0, 0⟩) 0
      (Chan.Reach.create false 0) h1) h2, by decide, by decide⟩

/-- C4 counterexample: after `fr_channel_signal_responder_close`, the channel
is inactive, yet `fr_channel_send_request` still returns 0 (success) — it
performs no `active` check — refuting "every subsequent send returns an
error". -/
theorem channel_send_request_succeeds_after_close :
    Chan.fr_channel_active c4chan = false ∧
    (Chan.fr_channel_send_request c4chan ⟨0, 0, 0, 0, 0⟩).map Prod.fst =
      some 0 := by
  exact ⟨by decide, by decide⟩

/-- C4, amended: after either side signals close
(`fr_channel_signal_responder_close` or `fr_channel_responder_ack_close`),
`fr_channel_active` returns false, every subsequent `fr_channel_send_reply`
returns an error without changing the state, and no data-path operation ever
re-activates the channel.  (`fr_channel_send_request`, by contrast, performs
no `active` check; see the counterexample.) -/
theorem channel_close_deactivates_and_send_reply_fails (ch : Chan.Channel) :
    Chan.fr_channel_active (Chan.fr_channel_signal_responder_close ch).2 = false ∧
    Chan.fr_channel_active (Chan.fr_channel_responder_ack_close ch).2 = false ∧
    (∀ cd, ch.active = false → Chan.fr_channel_send_reply ch cd = some (-1, ch)) ∧
    (∀ op r ch', Chan.applyOp ch op = some (r, ch') → ch.active = false →
      ch'.active = false) := by
  refine ⟨rfl, rfl, fun cd ha => ?_, fun op r ch' happ ha =>
    (Chan.applyOp_step happ).2 ha⟩
  unfold Chan.fr_channel_send_reply
  simp [ha]

/-- Witness for `channel_close_deactivates_and_send_reply_fails` at the
closed channel `c4chan`. -/
theorem channel_close_deactivates_and_send_reply_fails_witness :
    Chan.fr_channel_send_reply c4chan ⟨1, 0, 0, 0, 0⟩ = some (-1, c4chan) :=
  (channel_close_deactivates_and_send_reply_fails c4chan).2.2.1
    ⟨1, 0, 0, 0, 0⟩ (by decide)

/-- C7 counterexample: on the first successful cross-thread
`fr_channel_send_request` (previous `message_interval` 0, `last_write` 0,
descriptor timestamp 8) the stored interval is the raw sample 8, not
`(8 + 7*0)/8 = 1` as the claimed formula would give. -/
theorem channel_first_request_interval_is_raw_sample :
    (Chan.fr_channel_send_request (Chan.fr_channel_create false 0)
        ⟨8, 0, 0, 0, 0⟩).map (fun p => p.2.endToResponder.message_interval) =
      some 8 ∧
    (8 + 7 * 0) / 8 = 1 ∧ ¬ (8 : Nat) = 1 := by
  exact ⟨by decide, by decide, by decide⟩

/-- C7, amended: on every successful cross-thread send the sending End's
`message_interval` is updated to `(sample + 7*old)/8` where `sample` is the
descriptor timestamp minus the End's previous `last_write` — except that
`fr_channel_send_request` stores the raw sample when the previous estimate is
zero (`fr_channel_send_reply` applies the formula unconditionally). -/
theorem channel_send_ema_update (ch : Chan.Channel) (cd : Chan.Desc)
    (ch' : Chan.Channel) (hs : ch.same_thread = false) :
    (Chan.fr_channel_send_request ch cd = some (0, ch') →
      ch'.endToResponder.message_interval =
        (if ch.endToResponder.message_interval = 0
         then cd.when - ch.endToResponder.last_write
         else (cd.when - ch.endToResponder.last_write +
               7 * ch.endToResponder.message_interval) / 8)) ∧
    (Chan.fr_channel_send_reply ch cd = some (0, ch') →
      ch'.endToRequestor.message_interval =
        (cd.when - ch.endToRequestor.last_write +
         7 * ch.endToRequestor.message_interval) / 8) := by
  constructor
  · intro h
    unfold Chan.fr_channel_send_request at h
    rw [hs] at h
    simp only [Bool.false_eq_true, if_false] at h
    split at h
    · rw [Option.map_eq_some'] at h
      obtain ⟨c, _, hpair⟩ := h
      exact absurd (congrArg Prod.fst hpair) (by simp)
    · rename_i q hq
      split at h
      · injection h with h1
        obtain ⟨-, h2⟩ := Chan.pair_eq_split h1
        subst h2
        have hf := (Chan.data_ready_frame (Chan.sendRequestCommit ch cd q)
          cd.when .toResponder .sigDataToResponder).2.2.2.2
        rw [hf]
        simp [Chan.sendRequestCommit, Chan.RTT, Chan.IALPHA]
      · exact absurd h (by simp)
  · intro h
    unfold Chan.fr_channel_send_reply at h
    split at h
    · injection h with h1
      exact absurd (congrArg Prod.fst h1) (by simp)
    · rw [hs] at h
      simp only [Bool.false_eq_true, if_false] at h
      split at h
      · rw [Option.map_eq_some'] at h
        obtain ⟨c, _, hpair⟩ := h
        exact absurd (congrArg Prod.fst hpair) (by simp)
      · split at h
        · split at h
          · exact absurd h (by simp)
          · rename_i ch2 heq
            have hdr := (Chan.drainRequests_step heq).2.2.2.2
            have hcm : ∀ q, (Chan.sendReplyCommit ch cd q).endToRequestor.message_interval =
                (cd.when - ch.endToRequestor.last_write +
                  7 * ch.endToRequestor.message_interval) / 8 := by
              intro q
              simp [Chan.sendReplyCommit, Chan.RTT, Chan.IALPHA]
            unfold Chan.sendReplySignal at h
            split at h
            · injection h with h1
              obtain ⟨-, h2⟩ := Chan.pair_eq_split h1
              subst h2
              rw [(Chan.data_ready_frame ch2 cd.when .toRequestor
                .sigDataDoneResponder).2.2.2.1, hdr, hcm]
            · split at h
              · injection h with h1
                injection h1 with _ h2
                subst h2
                rw [hdr, hcm]
              · split at h
                · injection h with h1
                  obtain ⟨-, h2⟩ := Chan.pair_eq_split h1
                  subst h2
                  rw [(Chan.data_ready_frame ch2 cd.when .toRequestor
                    .sigDataToRequestor).2.2.2.1, hdr, hcm]
                · exact absurd h (by simp)
        · exact absurd h (by simp)

/-- Witness for `channel_send_ema_update`: a concrete successful send. -/
theorem channel_send_ema_update_witness :
    c7chan.endToResponder.message_interval =
      (if (Chan.fr_channel_create false 0).endToResponder.message_interval = 0
       then (8 : Nat) - (Chan.fr_channel_create false 0).endToResponder.last_write
       else ((8 : Nat) - (Chan.fr_channel_create false 0).endToResponder.last_write +
             7 * (Chan.fr_channel_create false 0).endToResponder.message_interval) / 8) :=
  (channel_send_ema_update (Chan.fr_channel_create false 0) ⟨8, 0, 0, 0, 0⟩
    c7chan rfl).1 (by decide)

/-- C10: when the inbound queue for the given direction is empty,
`fr_channel_recv_reply` and `fr_channel_recv_request` return false and leave
the channel state — every counter, sequence/ack field,
`their_view_of_my_sequence`, timestamp and EMA, and the event log (so no
callback and no control message) — completely unchanged. -/
theorem channel_recv_on_empty_queue_frame (ch : Chan.Channel) :
    (ch.endToRequestor.aq = [] →
      Chan.fr_channel_recv_reply ch = some (false, ch)) ∧
    (ch.endToResponder.aq = [] →
      Chan.fr_channel_recv_request ch = some (false, ch)) := by
  constructor
  · intro h
    unfold Chan.fr_channel_recv_reply
    rw [h]
  · intro h
    unfold Chan.fr_channel_recv_request
    rw [h]

/-- Witness for `channel_recv_on_empty_queue_frame` at a fresh channel. -/
theorem channel_recv_on_empty_queue_frame_witness :
    Chan.fr_channel_recv_reply (Chan.fr_channel_create false 0) =
      some (false, Chan.fr_channel_create false 0) ∧
    Chan.fr_channel_recv_request (Chan.fr_channel_create false 0) =
      some (false, Chan.fr_channel_create false 0) :=
  ⟨(channel_recv_on_empty_queue_frame _).1 rfl,
   (channel_recv_on_empty_queue_frame _).2 rfl⟩

namespace LstC

theorem keyTree_zero {α : Type} (g : Nat → Option α) (bound a b : Nat) :
    keyTree g bound 0 a b = .nil := rfl

theorem keyTree_succ {α : Type} (g : Nat → Option α) (bound d a b : Nat) :
    keyTree g bound (d + 1) a b =
      if b < bound then
        .node (g b) (keyTree g bound d (2 * a) (a + b))
          (keyTree g bound d (2 * a) (2 * a + b))
      else .nil := rfl

theorem keyTree_congr_away {α : Type} (g g2 : Nat → Option α) (bound bound2 k : Nat)
    (hgm : ∀ m, m ≠ k → g2 m = g m) (hbnd : ∀ m, m ≠ k → (m < bound ↔ m < bound2)) :
    ∀ d a b, 1 ≤ a → (∀ j, a * j + b ≠ k) →
      keyTree g bound d a b = keyTree g2 bound2 d a b := by
  intro d
  induction d with
  | zero => intro a b _ _; rfl
  | succ d ih =>
    intro a b ha hj
    have hbk : b ≠ k := by have h0 := hj 0; omega
    have hch : ∀ c j, c = 2 * a * j + (a + b) ∨ c = 2 * a * j + (2 * a + b) → c ≠ k := by
      intro c j hc
      rcases hc with hc | hc
      · have he : a * (2 * j + 1) + b = 2 * a * j + (a + b) := by ring
        have := hj (2 * j + 1)
        omega
      · have he : a * (2 * j + 2) + b = 2 * a * j + (2 * a + b) := by ring
        have := hj (2 * j + 2)
        omega
    by_cases hb : b < bound
    · rw [keyTree_succ, keyTree_succ, if_pos hb, if_pos ((hbnd b hbk).mp hb), hgm b hbk,
        ih (2 * a) (a + b) (by omega) (fun j => hch _ j (Or.inl rfl)),
        ih (2 * a) (2 * a + b) (by omega) (fun j => hch _ j (Or.inr rfl))]
    · rw [keyTree_succ, keyTree_succ, if_neg hb, if_neg (fun h => hb ((hbnd b hbk).mpr h))]

theorem keyTree_getF_aux {α : Type} (g : Nat → Option α) (bound : Nat) :
    ∀ d a b j fu, 1 ≤ a → j ≤ fu → j + 1 < 2 ^ d →
      NTree.getF fu (keyTree g bound d a b) j =
        if a * j + b < bound then g (a * j + b) else none := by
  intro d
  induction d with
  | zero =>
    intro a b j fu _ _ hd
    rw [pow_zero] at hd
    omega
  | succ d ih =>
    intro a b j fu ha hfu hd
    rw [pow_succ] at hd
    by_cases hb : b < bound
    · rw [keyTree_succ, if_pos hb]
      cases j with
      | zero => simp [NTree.getF, Nat.mul_zero, Nat.zero_add, hb]
      | succ jj =>
        cases fu with
        | zero => omega
        | succ fuu =>
          rw [NTree.getF]
          by_cases hp : (jj + 1) % 2 = 1
          · have hodd : jj + 1 = 2 * ((jj + 1) / 2) + 1 := by omega
            have he : 2 * a * ((jj + 1) / 2) + (a + b) = a * (jj + 1) + b := by
              conv_rhs => rw [hodd]
              ring
            rw [if_pos hp, ih (2 * a) (a + b) ((jj + 1) / 2) fuu (by omega) (by omega)
              (by omega), he]
          · have hev : jj + 1 = 2 * ((jj + 1) / 2 - 1) + 2 := by omega
            have he : 2 * a * ((jj + 1) / 2 - 1) + (2 * a + b) = a * (jj + 1) + b := by
              conv_rhs => rw [hev]
              ring
            rw [if_neg hp, ih (2 * a) (2 * a + b) ((jj + 1) / 2 - 1) fuu (by omega)
              (by omega) (by omega), he]
    · rw [keyTree_succ, if_neg hb]
      have hk : ¬ (a * j + b < bound) := by omega
      rw [if_neg hk]
      cases j <;> simp [NTree.getF]

theorem keyTree_get {α : Type} (g : Nat → Option α) (bound k : Nat)
    (h : k + 1 < 2 ^ 13) :
    (keyTree g bound 13 1 0).get k = if k < bound then g k else none := by
  have := keyTree_getF_aux g bound 13 1 0 k k (Nat.le_refl 1) (Nat.le_refl k) h
  simpa [get, Nat.one_mul] using this

theorem keyTree_setF_aux {α : Type} (g g2 : Nat → Option α) (bound bound2 k : Nat)
    (x : α) (hx : g2 k = some x) (hgm : ∀ m, m ≠ k → g2 m = g m)
    (hkb : k < bound2) (hbnd : ∀ m, m ≠ k → (m < bound ↔ m < bound2)) :
    ∀ d a b j fu, 1 ≤ a → k = a * j + b → j ≤ fu → j + 1 < 2 ^ d →
      NTree.setF fu (keyTree g bound d a b) j x = keyTree g2 bound2 d a b := by
  intro d
  induction d with
  | zero =>
    intro a b j fu _ _ _ hd
    rw [pow_zero] at hd
    omega
  | succ d ih =>
    intro a b j fu ha hk hfu hd
    rw [pow_succ] at hd
    cases j with
    | zero =>
      have hbk : b = k := by omega
      subst hbk
      rw [keyTree_succ, keyTree_succ, if_pos (show b < bound2 by omega)]
      have hclean : ∀ a2 b2 : Nat, 1 ≤ a2 → b < b2 →
          keyTree g2 bound2 d a2 b2 = keyTree g bound d a2 b2 := by
        intro a2 b2 ha2 hb2
        exact keyTree_congr_away g2 g bound2 bound b
          (fun m hm => (hgm m hm).symm) (fun m hm => (hbnd m hm).symm)
          d a2 b2 ha2 (fun j => by
            have : 0 < a2 * j + b2 - b := by omega
            omega)
      by_cases hb : b < bound
      · rw [if_pos hb]
        cases fu <;>
          rw [NTree.setF] <;>
          rw [hx, hclean (2 * a) (a + b) (by omega) (by omega),
            hclean (2 * a) (2 * a + b) (by omega) (by omega)]
      · rw [if_neg hb]
        have hl : keyTree g2 bound2 d (2 * a) (a + b) = .nil := by
          rw [hclean (2 * a) (a + b) (by omega) (by omega)]
          cases d with
          | zero => rfl
          | succ d2 => rw [keyTree_succ, if_neg (by omega)]
        have hr : keyTree g2 bound2 d (2 * a) (2 * a + b) = .nil := by
          rw [hclean (2 * a) (2 * a + b) (by omega) (by omega)]
          cases d with
          | zero => rfl
          | succ d2 => rw [keyTree_succ, if_neg (by omega)]
        rw [hx, hl, hr]
        cases fu <;> rw [NTree.setF]
    | succ jj =>
      have haj : 1 ≤ a * (jj + 1) := Nat.one_le_iff_ne_zero.mpr
        (Nat.mul_ne_zero (by omega) (by omega))
      have hbk : b ≠ k := by omega
      have hbb : b < bound := by
        have := (hbnd b hbk).mpr (by omega)
        omega
      cases fu with
      | zero => omega
      | succ fuu =>
        rw [keyTree_succ, keyTree_succ, if_pos hbb,
          if_pos (show b < bound2 by omega), NTree.setF]
        by_cases hp : (jj + 1) % 2 = 1
        · have hodd : jj + 1 = 2 * ((jj + 1) / 2) + 1 := by omega
          have he : a * (jj + 1) + b = 2 * a * ((jj + 1) / 2) + (a + b) := by
            conv_lhs => rw [hodd]
            ring
          rw [if_pos hp, hgm b hbk,
            ih (2 * a) (a + b) ((jj + 1) / 2) fuu (by omega) (by omega) (by omega)
              (by omega),
            keyTree_congr_away g g2 bound bound2 k hgm hbnd d (2 * a) (2 * a + b)
              (by omega) (fun jr => by
                have he2 : a * (2 * jr + 2) + b = 2 * a * jr + (2 * a + b) := by ring
                have hne : a * (2 * jr + 2) ≠ a * (jj + 1) := by
                  intro hcon
                  have := Nat.eq_of_mul_eq_mul_left (show 0 < a by omega) hcon
                  omega
                omega)]
        · have hev : jj + 1 = 2 * ((jj + 1) / 2 - 1) + 2 := by omega
          have he : a * (jj + 1) + b = 2 * a * ((jj + 1) / 2 - 1) + (2 * a + b) := by
            conv_lhs => rw [hev]
            ring
          rw [if_neg hp, hgm b hbk,
            ih (2 * a) (2 * a + b) ((jj + 1) / 2 - 1) fuu (by omega) (by omega)
              (by omega) (by omega),
            keyTree_congr_away g g2 bound bound2 k hgm hbnd d (2 * a) (a + b)
              (by omega) (fun jl => by
                have he2 : a * (2 * jl + 1) + b = 2 * a * jl + (a + b) := by ring
                have hne : a * (2 * jl + 1) ≠ a * (jj + 1) := by
                  intro hcon
                  have := Nat.eq_of_mul_eq_mul_left (show 0 < a by omega) hcon
                  omega
                omega)]

theorem keyTree_set_point {α : Type} (g g2 : Nat → Option α) (bound bound2 k : Nat)
    (x : α) (hx : g2 k = some x) (hgm : ∀ m, m ≠ k → g2 m = g m)
    (hkb : k < bound2) (hbnd : ∀ m, m ≠ k → (m < bound ↔ m < bound2))
    (hk : k + 1 < 2 ^ 13) :
    (keyTree g bound 13 1 0).set k x = keyTree g2 bound2 13 1 0 := by
  have := keyTree_setF_aux g g2 bound bound2 k x hx hgm hkb hbnd 13 1 0 k k
    (Nat.le_refl 1) (by omega) (Nat.le_refl k) hk
  simpa [set] using this

/-- During the filling phase each insert goes through the single-bucket
fast path of `fr_lst_insert` and lands in the next free slot. -/
theorem phase1_step (c : Nat) (hc : c < 2048) :
    runBOp cexCmp cexRnd (cexInsState c) (.ins (c + 1)) = cexInsState (c + 1) := by
  by_cases hc0 : c = 0
  · subst hc0
    decide
  have hbkt : is_bucket (cexInsState c) 0 := by
    simp [is_bucket, lst_length, stack_depth, cexInsState]
  have hloop : insertLoop cexCmp cexRnd (c + 1) (cexInsState c) 0
      (stack_depth (cexInsState c).s + 1) = (0, cexInsState c) := by
    rw [show stack_depth (cexInsState c).s + 1 = 1 + 1 from rfl]
    rw [insertLoop, if_pos hbkt]
  have hne : ¬ ((cexInsState c).num_elements = (cexInsState c).capacity) := by
    simp only [cexInsState]
    intro h
    rw [show ((2048 : Int) = ((2048 : Nat) : Int)) from rfl] at h
    exact absurd (Nat.cast_injective h) (by omega)
  have hitem : stack_item (cexInsState c).s 0 = (c : Int) := by
    simp [stack_item, cexInsState, NTree.get_set_self]
  have hred : Int.emod (c : Int) 2048 = (c : Int) :=
    Int.emod_eq_of_lt (by omega) (by exact_mod_cast hc)
  have hp : ((cexInsState c).p).set ((c : Int).emod 2048).toNat (c + 1) =
      keyTree gSlots (c + 1) 13 1 0 := by
    rw [hred, Int.toNat_natCast]
    exact keyTree_set_point gSlots gSlots c (c + 1) c (c + 1) rfl
      (fun _ _ => rfl) (by omega) (fun m hm => by omega) (by omega)
  have hback : ((cexInsState c).back).set (c + 1) ((c : Int).emod 2048) =
      keyTree (gBack 0) (c + 2) 13 1 0 := by
    rw [hred]
    refine keyTree_set_point (gBack 0) (gBack 0) (if c = 0 then 0 else c + 1)
      (c + 2) (c + 1) (c : Int) ?_ (fun _ _ => rfl) (by omega) ?_ (by omega)
    · show gBack 0 (c + 1) = some (c : Int)
      simp only [gBack]
      rw [if_neg (by omega), if_neg (by omega)]
      congr 1
      push_cast
      ring
    · intro m hm
      rw [if_neg hc0]
      omega
  show (fr_lst_insert cexCmp cexRnd (cexInsState c) (c + 1)).2 = cexInsState (c + 1)
  rw [fr_lst_insert, if_neg hne, hloop]
  show bucket_add (cexInsState c) 0 (c + 1) = cexInsState (c + 1)
  rw [bucket_add, lst_move]
  rw [if_neg (show ¬ ((c + 1 : Addr) = 0) by omega)]
  show ({ capacity := 2048, idx := 0, num_elements := (c : Int) + 1,
          p := ((cexInsState c).p).set ((c : Int).emod 2048).toNat (c + 1),
          back := ((cexInsState c).back).set (c + 1) ((c : Int).emod 2048),
          s := { depth := 1, size := 32,
                 data := (NTree.nil.set 0 (c : Int)).set 0 ((c : Int) + 1) },
          rc := 0 } : Lst) = cexInsState (c + 1)
  rw [hp, hback]
  simp only [cexInsState, if_neg (show ¬ (c + 1 = 0) by omega), Nat.cast_add,
    Nat.cast_one]
  rfl

/-- During the draining phase each extract of the oldest element takes the
`location == idx` fast path of `bucket_delete`: `idx` advances, the
back-index is voided, and the slots and pivot stack stay put. -/
theorem phase2_step (e : Nat) (he : e < 2040) :
    runBOp cexCmp cexRnd (cexExtState e) (.ext (e + 1)) = cexExtState (e + 1) := by
  have hget : (cexExtState e).back.get (e + 1) = some ((e : Int)) := by
    show (keyTree (gBack e) 2049 13 1 0).get (e + 1) = _
    rw [keyTree_get _ _ _ (by omega), if_pos (by omega)]
    simp only [gBack]
    rw [if_neg (by omega), if_neg (by omega)]
    congr 1
    push_cast
    ring
  have hii : item_index (cexExtState e) (e + 1) = (e : Int) := by
    simp [item_index, hget]
  have hne : ¬ ((cexExtState e).num_elements = 0) := by
    simp only [cexExtState]
    intro h
    rw [show ((0 : Int) = ((0 : Nat) : Int)) from rfl] at h
    exact absurd (Nat.cast_injective h) (by omega)
  have hsi : stack_item (cexExtState e).s 0 = (2048 : Int) := by
    simp [stack_item, cexExtState, NTree.get_set_self]
  have hfb : findBucket (cexExtState e) ((e : Int)) (stack_depth (cexExtState e).s)
      = 0 := by
    rw [show stack_depth (cexExtState e).s = 1 from rfl, findBucket, hsi,
      if_neg (show ¬ ((2048 : Int) < (e : Int)) by omega)]
  have hnf : ¬ (stack_item (cexExtState e).s 0 = (e : Int)) := by
    rw [hsi]
    intro h
    omega
  have heqv : equivalent (cexExtState e) ((e : Int)) (cexExtState e).idx := by
    simp only [equivalent, reduce, cexExtState, Int.sub_self]
    rfl
  have hback : ((cexExtState e).back).set (e + 1) (-1) =
      keyTree (gBack (e + 1)) 2049 13 1 0 := by
    refine keyTree_set_point (gBack e) (gBack (e + 1)) 2049 2049 (e + 1) (-1) ?_ ?_
      (by omega) (fun m hm => Iff.rfl) (by omega)
    · show gBack (e + 1) (e + 1) = some (-1)
      simp only [gBack]
      rw [if_neg (by omega), if_pos (Nat.le_refl _)]
    · intro m hm
      simp only [gBack]
      by_cases h0 : m = 0
      · simp [h0]
      · rw [if_neg h0, if_neg h0]
        by_cases hle : m ≤ e
        · rw [if_pos hle, if_pos (by omega)]
        · rw [if_neg hle, if_neg (by omega)]
  show (fr_lst_extract cexCmp cexRnd (cexExtState e) (some (e + 1))).2 =
    cexExtState (e + 1)
  rw [fr_lst_extract, if_neg hne, hii,
    if_neg (show ¬ ((e : Int) < 0) by omega), hfb]
  show ((1 : Int), bucket_delete
      (if stack_item (cexExtState e).s 0 = (e : Int) then
        lst_flatten (cexExtState e) 0 else cexExtState e) (e + 1)).2 =
    cexExtState (e + 1)
  rw [if_neg hnf]
  show (bucket_delete (cexExtState e) (e + 1)) = cexExtState (e + 1)
  rw [bucket_delete, hii, if_pos heqv]
  show ({ capacity := 2048, idx := (e : Int) + 1,
          num_elements := ((2048 - e : Nat) : Int) - 1,
          p := keyTree gSlots 2048 13 1 0,
          back := ((cexExtState e).back).set (e + 1) (-1),
          s := { depth := 1, size := 32, data := NTree.nil.set 0 2048 },
          rc := 0 } : Lst) = cexExtState (e + 1)
  rw [hback]
  simp only [cexExtState]
  congr 1 <;> omega

theorem runBuild_append (cmp : Addr → Addr → Int) (rnd : Nat → Nat) (lst : Lst)
    (l1 l2 : List BOp) :
    runBuild cmp rnd lst (l1 ++ l2) = runBuild cmp rnd (runBuild cmp rnd lst l1) l2 := by
  simp [runBuild, List.foldl_append]

theorem insOps_succ (s c : Nat) : insOps s (c + 1) = insOps s c ++ [.ins (s + c)] := by
  simp [insOps, List.range_succ]

theorem extOps_succ (s c : Nat) : extOps s (c + 1) = extOps s c ++ [.ext (s + c)] := by
  simp [extOps, List.range_succ]

theorem phase1_all : ∀ c, c ≤ 2048 →
    runBuild cexCmp cexRnd (cexInsState 0) (insOps 1 c) = cexInsState c := by
  intro c
  induction c with
  | zero => intro _; simp [insOps, runBuild]
  | succ c ih =>
    intro h
    rw [insOps_succ, runBuild_append, ih (by omega)]
    show runBOp cexCmp cexRnd (cexInsState c) (.ins (1 + c)) = cexInsState (c + 1)
    rw [Nat.add_comm 1 c]
    exact phase1_step c (by omega)

theorem phase2_all : ∀ e, e ≤ 2040 →
    runBuild cexCmp cexRnd (cexExtState 0) (extOps 1 e) = cexExtState e := by
  intro e
  induction e with
  | zero => intro _; simp [extOps, runBuild]
  | succ e ih =>
    intro h
    rw [extOps_succ, runBuild_append, ih (by omega)]
    show runBOp cexCmp cexRnd (cexExtState e) (.ext (1 + e)) = cexExtState (e + 1)
    rw [Nat.add_comm 1 e]
    exact phase2_step e (by omega)

theorem alloc_closed : fr_lst_alloc = cexInsState 0 := rfl

theorem insState_toExt : cexInsState 2048 = cexExtState 0 := rfl

theorem fill_drain_closed : cexLst =
    runBuild cexCmp cexRnd (cexExtState 2040)
      [.ins 5000, .ins 5001, .extNull, .ext 5001] := by
  have htr : cexTrace =
      insOps 1 2048 ++ extOps 1 2040 ++ [.ins 5000, .ins 5001, .extNull, .ext 5001] :=
    rfl
  have h0 : cexLst = runBuild cexCmp cexRnd fr_lst_alloc cexTrace := rfl
  rw [h0, htr, runBuild_append, runBuild_append, alloc_closed,
    phase1_all 2048 (Nat.le_refl _), insState_toExt, phase2_all 2040 (Nat.le_refl _)]

end LstC

set_option maxRecDepth 100000 in
/-- C1: the LST built by `cexTrace` (2048 inserts, 2040 extracts of the
oldest elements, two further inserts that wrap past the end of the element
array, one pop and one extract) pops its remaining elements with
priorities `12, 11, 20, ...`: the element with priority 12 comes out
before the element with priority 11, so the popped sequence of this
insert/extract history is NOT non-decreasing under the comparator.  (The
pivot-stack scan of `fr_lst_extract`/`bucket_delete` compares raw pivot
entries against a reduced location, so once `idx + num_elements` exceeds
the capacity it picks the wrong bucket and breaks the ordering
invariant.) -/
theorem lst_pop_sequence_out_of_order :
    (LstC.fr_lst_pop_all LstC.cexCmp LstC.cexRnd LstC.cexLst).map LstC.cexKey =
      [12, 11, 20, 21, 22, 23, 24, 30] ∧
    ¬ List.Chain' (fun a b => LstC.cexCmp a b ≤ 0)
      (LstC.fr_lst_pop_all LstC.cexCmp LstC.cexRnd LstC.cexLst) := by
  have hpops : LstC.fr_lst_pop_all LstC.cexCmp LstC.cexRnd LstC.cexLst =
      [2043, 2042, 2044, 2045, 2046, 2047, 2048, 5000] := by
    rw [LstC.fill_drain_closed]
    decide
  rw [hpops]
  refine ⟨by decide, fun hch => ?_⟩
  rw [List.chain'_cons] at hch
  exact absurd hch.1 (by decide)

/-- C2: on an empty container, `fr_lst_peek`/`fr_lst_pop` do return NULL
and leave the LST untouched, but `fr_quickheap_peek` returns the *never
written* slot `heap[0]` (garbage, not necessarily NULL), and
`fr_quickheap_pop` additionally advances `idx` past the heap end and pops
the sentinel off the pivot stack: the resulting quickheap has pivot-stack
depth 0 and reports 2048 elements while holding none. -/
theorem empty_peek_pop_lst_null_quickheap_corrupt :
    LstC.fr_lst_peek cmpAddr rndZero LstC.fr_lst_alloc = (none, LstC.fr_lst_alloc) ∧
    LstC.fr_lst_pop cmpAddr rndZero LstC.fr_lst_alloc = (none, LstC.fr_lst_alloc) ∧
    Qh.fr_quickheap_peek cmpAddr rndZero Qh.fr_quickheap_alloc =
      some (0, Qh.fr_quickheap_alloc) ∧
    Qh.fr_quickheap_pop cmpAddr rndZero Qh.fr_quickheap_alloc =
      some (0, { capacity := 2049, idx := 1, heap := .nil,
                 s := { depth := 0, size := 32, data := NTree.nil.set 0 0 },
                 rc := 0 }) ∧
    (Qh.fr_quickheap_pop cmpAddr rndZero Qh.fr_quickheap_alloc).map
      (fun p => Qh.fr_quickheap_num_elements p.2) = some (some 2048) := by
  refine ⟨by decide, by decide, by decide, by decide, by decide⟩

/-- C8: on a full pivot stack, the LST's `stack_push` doubles the
capacity and stores the entry in bounds (depth 33 ≤ size 64, entry at
slot 32), while the quickheap's `stack_push` stores at index 32 of a
32-entry array — outside the allocation (the code says
`todo: try to extend if it's full`). -/
theorem stack_push_full_lst_grows_quickheap_overflows :
    (LstC.stack_push lstFullStack 9).depth = 33 ∧
    (LstC.stack_push lstFullStack 9).size = 64 ∧
    LstC.stack_item (LstC.stack_push lstFullStack 9) 32 = 9 ∧
    (LstC.stack_push lstFullStack 9).data = lstFullStack.data.set 32 9 ∧
    Qh.stack_push qhFullStack 9 = none := by
  refine ⟨by decide, by decide, by decide, by decide, by decide⟩

/-- C9: inserting the same two elements (addresses 7 then 8, compared by
address) with the same oracle stream: the LST accepts both and pops them
in order, while the quickheap's second insert reads pivot-stack slot 1,
which was never written (only slot 0 of the freshly allocated stack ever
held a value) — the comparison it feeds is undefined, so the two
containers cannot produce equal pop sequences. -/
theorem quickheap_second_insert_reads_unwritten_stack_slot :
    LstC.fr_lst_pop_all cmpAddr rndZero
      (LstC.runBuild cmpAddr rndZero LstC.fr_lst_alloc [.ins 7, .ins 8]) = [7, 8] ∧
    Qh.fr_quickheap_insert cmpAddr Qh.fr_quickheap_alloc 7 =
      some { capacity := 2049, idx := 0,
             heap := .node (some 7) (.node (some 0) .nil .nil) .nil,
             s := { depth := 1, size := 32, data := .node (some 1) .nil .nil },
             rc := 0 } ∧
    (Qh.fr_quickheap_insert cmpAddr Qh.fr_quickheap_alloc 7).bind
      (fun q => Qh.fr_quickheap_insert cmpAddr q 8) = none := by
  refine ⟨by decide, by decide, by decide⟩

namespace LstH

open LstC (Lst PivotStack Addr reduce item item_index equivalent is_bucket
  lst_length lst_size stack_item stack_set stack_push stack_pop stack_depth
  lst_move lst_flatten bucket_lwb bucket_upb)

theorem reduceLoop_frame (r o : Int) :
    ∀ k i (lst : Lst),
      (reduceLoop r o lst i k).capacity = lst.capacity ∧
      (reduceLoop r o lst i k).idx = lst.idx ∧
      (reduceLoop r o lst i k).num_elements = lst.num_elements ∧
      (reduceLoop r o lst i k).p = lst.p ∧
      (reduceLoop r o lst i k).back = lst.back ∧
      (reduceLoop r o lst i k).s.depth = lst.s.depth ∧
      (reduceLoop r o lst i k).s.size = lst.s.size ∧
      (reduceLoop r o lst i k).rc = lst.rc := by
  intro k
  induction k with
  | zero => intro i lst; simp [reduceLoop]
  | succ k ih =>
    intro i lst
    rw [reduceLoop]
    simpa using ih (i + 1)
      { lst with s := stack_set lst.s i (r + stack_item lst.s i - o) }

theorem reduceLoop_item (r o : Int) :
    ∀ k i (lst : Lst) (j : Nat),
      stack_item (reduceLoop r o lst i k).s j =
        if i ≤ j ∧ j < i + k then r + stack_item lst.s j - o
        else stack_item lst.s j := by
  intro k
  induction k with
  | zero =>
    intro i lst j
    rw [reduceLoop, if_neg (by omega)]
  | succ k ih =>
    intro i lst j
    rw [reduceLoop, ih]
    have hsi : ∀ j2, stack_item (stack_set lst.s i (r + stack_item lst.s i - o)) j2 =
        if i = j2 then r + stack_item lst.s i - o else stack_item lst.s j2 := by
      intro j2
      simp only [LstC.stack_item, LstC.stack_set, NTree.get_set]
      split <;> simp
    simp only [hsi]
    by_cases h1 : i = j
    · subst h1
      split_ifs <;> omega
    · rw [if_neg h1]
      split_ifs <;> omega

theorem lst_reduce_indices_spec (lst : Lst) :
    (lst_reduce_indices lst).capacity = lst.capacity ∧
    (lst_reduce_indices lst).idx = reduce lst lst.idx ∧
    (lst_reduce_indices lst).num_elements = lst.num_elements ∧
    (lst_reduce_indices lst).p = lst.p ∧
    (lst_reduce_indices lst).back = lst.back ∧
    (lst_reduce_indices lst).s.depth = lst.s.depth ∧
    (lst_reduce_indices lst).s.size = lst.s.size ∧
    (lst_reduce_indices lst).rc = lst.rc ∧
    (∀ i, i < stack_depth lst.s →
      stack_item (lst_reduce_indices lst).s i =
        reduce lst lst.idx + stack_item lst.s i - lst.idx) ∧
    (∀ i, stack_depth lst.s ≤ i →
      stack_item (lst_reduce_indices lst).s i = stack_item lst.s i) := by
  obtain ⟨f1, f2, f3, f4, f5, f6, f7, f8⟩ :=
    reduceLoop_frame (reduce lst lst.idx) lst.idx (stack_depth lst.s) 0 lst
  have hi := reduceLoop_item (reduce lst lst.idx) lst.idx (stack_depth lst.s) 0 lst
  refine ⟨f1, rfl, f3, f4, f5, f6, f7, f8, fun i hlt => ?_, fun i hge => ?_⟩
  · rw [show stack_item (lst_reduce_indices lst).s i =
      stack_item (reduceLoop (reduce lst lst.idx) lst.idx lst 0 (stack_depth lst.s)).s i
      from rfl, hi i, if_pos (by omega)]
  · rw [show stack_item (lst_reduce_indices lst).s i =
      stack_item (reduceLoop (reduce lst lst.idx) lst.idx lst 0 (stack_depth lst.s)).s i
      from rfl, hi i, if_neg (by omega)]

/-- C6: when the deleted element sits at position `idx`, `bucket_delete`
increments `idx`, and exactly when the incremented `idx` reduces to 0 it
normalises `idx` and every in-use pivot-stack entry via
`lst_reduce_indices` (each pivot becomes `reduced_idx + (pivot - idx)`,
`idx` becomes `reduced_idx`); apart from that, only the element count and
the removed element's back-index change — the element array, pivot-stack
depth and size, capacity, the PRNG counter, and the stack entries above
the in-use depth are untouched. -/
theorem bucket_delete_at_idx (lst : Lst) (data : Addr)
    (h : equivalent lst (item_index lst data) lst.idx) :
    ((bucket_delete lst data).capacity = lst.capacity ∧
     (bucket_delete lst data).p = lst.p ∧
     (bucket_delete lst data).num_elements = lst.num_elements - 1 ∧
     (bucket_delete lst data).back = lst.back.set data (-1) ∧
     (bucket_delete lst data).s.depth = lst.s.depth ∧
     (bucket_delete lst data).s.size = lst.s.size ∧
     (bucket_delete lst data).rc = lst.rc) ∧
    (¬ equivalent lst (lst.idx + 1) 0 →
      (bucket_delete lst data).idx = lst.idx + 1 ∧
      (bucket_delete lst data).s = lst.s) ∧
    (equivalent lst (lst.idx + 1) 0 →
      (bucket_delete lst data).idx = reduce lst (lst.idx + 1) ∧
      (∀ i, i < stack_depth lst.s →
        stack_item (bucket_delete lst data).s i =
          reduce lst (lst.idx + 1) + stack_item lst.s i - (lst.idx + 1)) ∧
      (∀ i, stack_depth lst.s ≤ i →
        stack_item (bucket_delete lst data).s i = stack_item lst.s i)) := by
  have hcore : bucket_delete lst data =
      { (if equivalent lst (lst.idx + 1) 0 then
           lst_reduce_indices { lst with idx := lst.idx + 1 }
         else { lst with idx := lst.idx + 1 }) with
        num_elements := lst.num_elements - 1,
        back := lst.back.set data (-1) } := by
    rw [bucket_delete, if_pos h]
    by_cases h0 : equivalent lst (lst.idx + 1) 0
    · rw [if_pos h0, if_pos (show equivalent { lst with idx := lst.idx + 1 }
        (lst.idx + 1) 0 from h0)]
      obtain ⟨-, -, f3, -, f5, -, -, -⟩ :=
        lst_reduce_indices_spec { lst with idx := lst.idx + 1 }
      rw [show ({ lst with idx := lst.idx + 1 } : Lst).num_elements =
        lst.num_elements from rfl] at f3
      rw [show ({ lst with idx := lst.idx + 1 } : Lst).back = lst.back from rfl] at f5
      rw [f3, f5]
    · rw [if_neg h0, if_neg (show ¬ equivalent { lst with idx := lst.idx + 1 }
        (lst.idx + 1) 0 from h0)]
  by_cases h0 : equivalent lst (lst.idx + 1) 0
  · obtain ⟨f1, f2, -, f4, f5, f6, f7, f8, f9, f10⟩ :=
      lst_reduce_indices_spec { lst with idx := lst.idx + 1 }
    rw [hcore, if_pos h0]
    refine ⟨⟨f1, f4, rfl, rfl, f6, f7, f8⟩, fun hn => absurd h0 hn, fun _ =>
      ⟨f2, fun i hlt => ?_, fun i hge => ?_⟩⟩
    · exact f9 i hlt
    · exact f10 i hge
  · rw [hcore, if_neg h0]
    exact ⟨⟨rfl, rfl, rfl, rfl, rfl, rfl, rfl⟩,
      fun _ => ⟨rfl, rfl⟩, fun hw => absurd hw h0⟩

end LstH

/-- Witness for `LstH.bucket_delete_at_idx`: deleting address 7 of `c6lst`
takes the `idx` fast path, wraps, and normalises `idx` to 0 and the
fictitious pivot from 2048 to 0; the back-index of 7 is voided. -/
theorem bucket_delete_at_idx_witness :
    (LstH.bucket_delete c6lst 7).idx = 0 ∧
    LstC.stack_item (LstH.bucket_delete c6lst 7).s 0 = 0 ∧
    (LstH.bucket_delete c6lst 7).back = c6lst.back.set 7 (-1) := by
  obtain ⟨⟨-, -, -, hb, -, -, -⟩, -, hw⟩ :=
    LstH.bucket_delete_at_idx c6lst 7 (by decide)
  obtain ⟨hidx, hstack, -⟩ := hw (by decide)
  refine ⟨?_, ?_, hb⟩
  · rw [hidx]
    decide
  · rw [hstack 0 (by decide)]
    decide

/-- C5 counterexample: partitioning the bucket `[7, 8]` of equal-ranking
elements (PRNG draw 0 picks index 0, so 7 is the pivot) pushes the split
point `h = 1` with the pivot 7 at `h` — but the element 8 at position 0,
before `h`, compares EQUAL to the pivot, not strictly `< 0` as the claim
states. -/
theorem partition_equal_element_before_split_point :
    (LstH.partition cmpDecade rndZero c5lst 0).map
      (fun l => (LstC.stack_item l.s 1, LstC.item l (LstC.stack_item l.s 1),
                 LstC.item l 0)) = some (1, 7, 8) ∧
    cmpDecade 8 7 = 0 ∧ ¬ cmpDecade 8 7 < 0 := by
  refine ⟨by decide, by decide, by decide⟩

namespace LstH

open LstC (Lst PivotStack Addr reduce item item_index equivalent is_bucket
  lst_length lst_size stack_item stack_set stack_push stack_pop stack_depth
  lst_move lst_flatten bucket_lwb bucket_upb)

theorem reduce_nonneg (lst : Lst) (i : Int) (hcap : 0 < lst.capacity) :
    0 ≤ reduce lst i := Int.emod_nonneg i (by omega)

theorem reduce_lt (lst : Lst) (i : Int) (hcap : 0 < lst.capacity) :
    reduce lst i < lst.capacity := Int.emod_lt_of_pos i hcap

theorem reduce_inj (lst : Lst) {i j : Int} (hcap : 0 < lst.capacity)
    (hij : i - j < lst.capacity) (hji : j - i < lst.capacity)
    (h : reduce lst i = reduce lst j) : i = j := by
  have hd : (i - j) % lst.capacity = 0 := by
    rw [Int.sub_emod, show i % lst.capacity = reduce lst i from rfl,
      show j % lst.capacity = reduce lst j from rfl, h, sub_self, Int.zero_emod]
  obtain ⟨k, hk⟩ := Int.dvd_of_emod_eq_zero hd
  have hk0 : k = 0 := by nlinarith
  rw [hk0, mul_zero] at hk
  omega

theorem reduce_move (lst : Lst) (i j : Int) (d : Addr) (hd : d ≠ 0) :
    reduce (lst_move lst i d) j = reduce lst j := by
  rw [lst_move, if_neg hd]
  rfl

theorem item_move (lst : Lst) (i j : Int) (d : Addr) (hd : d ≠ 0)
    (hcap : 0 < lst.capacity) :
    item (lst_move lst i d) j =
      if reduce lst i = reduce lst j then d else item lst j := by
  have h0 := reduce_nonneg lst i hcap
  have h1 := reduce_nonneg lst j hcap
  rw [item, reduce_move lst i j d hd]
  rw [show (lst_move lst i d).p = lst.p.set (reduce lst i).toNat d from by
    rw [lst_move, if_neg hd]]
  rw [NTree.get_set]
  by_cases h : reduce lst i = reduce lst j
  · rw [if_pos (by rw [h]), if_pos h]
    rfl
  · rw [if_neg (fun hc => h (by omega)), if_neg h]
    rfl

theorem item_index_move (lst : Lst) (i : Int) (d a : Addr) (hd : d ≠ 0) :
    item_index (lst_move lst i d) a =
      if d = a then reduce lst i else item_index lst a := by
  rw [item_index,
    show (lst_move lst i d).back = lst.back.set d (reduce lst i) from by
      rw [lst_move, if_neg hd]]
  rw [NTree.get_set]
  by_cases h : d = a
  · rw [if_pos h, if_pos h]
    rfl
  · rw [if_neg h, if_neg h]
    rfl

theorem lst_move_frame (lst : Lst) (i : Int) (d : Addr) (hd : d ≠ 0) :
    (lst_move lst i d).capacity = lst.capacity ∧
    (lst_move lst i d).idx = lst.idx ∧
    (lst_move lst i d).num_elements = lst.num_elements ∧
    (lst_move lst i d).s = lst.s ∧
    (lst_move lst i d).rc = lst.rc := by
  rw [lst_move, if_neg hd]
  exact ⟨rfl, rfl, rfl, rfl, rfl⟩

theorem scanUp_eq (cmp : Addr → Addr → Int) (pv : Addr) (lst : Lst) :
    ∀ (fu : Nat) (l q : Int), l < q → q - l ≤ (fu : Int) →
      (∀ i, l < i → i < q → cmp (item lst i) pv < 0) →
      ¬ cmp (item lst q) pv < 0 →
      scanUp cmp pv lst l fu = some q := by
  intro fu
  induction fu with
  | zero =>
    intro l q h1 h2 _ _
    simp only [Nat.cast_zero] at h2
    omega
  | succ fu ih =>
    intro l q h1 h2 hmid hq
    rw [scanUp]
    by_cases he : l + 1 = q
    · rw [he, if_neg hq]
    · rw [if_pos (hmid (l + 1) (by omega) (by omega))]
      exact ih (l + 1) q (by omega) (by push_cast at h2 ⊢; omega)
        (fun i hi1 hi2 => hmid i (by omega) hi2) hq

theorem scanDown_eq (cmp : Addr → Addr → Int) (pv : Addr) (lst : Lst) :
    ∀ (fu : Nat) (h q : Int), q < h → h - q ≤ (fu : Int) →
      (∀ i, q < i → i < h → cmp (item lst i) pv > 0) →
      ¬ cmp (item lst q) pv > 0 →
      scanDown cmp pv lst h fu = some q := by
  intro fu
  induction fu with
  | zero =>
    intro h q h1 h2 _ _
    simp only [Nat.cast_zero] at h2
    omega
  | succ fu ih =>
    intro h q h1 h2 hmid hq
    rw [scanDown]
    by_cases he : h - 1 = q
    · rw [he, if_neg hq]
    · rw [if_pos (hmid (h - 1) (by omega) (by omega))]
      exact ih (h - 1) q (by omega) (by push_cast at h2 ⊢; omega)
        (fun i hi1 hi2 => hmid i hi1 (by omega)) hq

/-- Swapping the (distinct, in-window) virtual positions `a` and `b`, as
the Hoare loop body does. -/
theorem swap_spec (lst : Lst) (low high a b : Int) (hcap : 0 < lst.capacity)
    (hwin : high - low + 1 ≤ lst.capacity)
    (ha : low ≤ a ∧ a ≤ high) (hb : low ≤ b ∧ b ≤ high) (hab : a ≠ b)
    (hnz : ∀ i, low ≤ i → i ≤ high → item lst i ≠ 0) :
    (∀ j, low ≤ j → j ≤ high →
      item (lst_move (lst_move lst a (item lst b)) b (item lst a)) j =
        if j = a then item lst b else if j = b then item lst a else item lst j) ∧
    ((lst_move (lst_move lst a (item lst b)) b (item lst a)).capacity =
      lst.capacity ∧
     (lst_move (lst_move lst a (item lst b)) b (item lst a)).idx = lst.idx ∧
     (lst_move (lst_move lst a (item lst b)) b (item lst a)).num_elements =
      lst.num_elements ∧
     (lst_move (lst_move lst a (item lst b)) b (item lst a)).s = lst.s ∧
     (lst_move (lst_move lst a (item lst b)) b (item lst a)).rc = lst.rc) := by
  have hdb : item lst b ≠ 0 := hnz b hb.1 hb.2
  have hda : item lst a ≠ 0 := hnz a ha.1 ha.2
  have hred : ∀ i j : Int, low ≤ i → i ≤ high → low ≤ j → j ≤ high →
      (reduce lst i = reduce lst j ↔ i = j) := by
    intro i j hi1 hi2 hj1 hj2
    exact ⟨fun h => reduce_inj lst hcap (by omega) (by omega) h, fun h => by rw [h]⟩
  have hm1cap : (lst_move lst a (item lst b)).capacity = lst.capacity :=
    (lst_move_frame lst a (item lst b) hdb).1
  have hredm : ∀ j, reduce (lst_move lst a (item lst b)) j = reduce lst j :=
    fun j => reduce_move lst a j (item lst b) hdb
  constructor
  · intro j hj1 hj2
    rw [item_move _ b j (item lst a) hda (by rw [hm1cap]; exact hcap)]
    rw [hredm b, hredm j, item_move lst a j (item lst b) hdb hcap]
    by_cases hja : j = a
    · rw [if_pos hja, if_neg (by
        rw [hred b j hb.1 hb.2 hj1 hj2]
        omega), if_pos ((hred a j ha.1 ha.2 hj1 hj2).mpr hja.symm)]
    · rw [if_neg (fun hc => hja ((hred a j ha.1 ha.2 hj1 hj2).mp hc).symm)]
      by_cases hjb : j = b
      · rw [if_pos ((hred b j hb.1 hb.2 hj1 hj2).mpr hjb.symm), if_neg hja, if_pos hjb]
      · rw [if_neg (fun hc => hjb ((hred b j hb.1 hb.2 hj1 hj2).mp hc).symm),
          if_neg hja, if_neg hjb]
  · obtain ⟨g1, g2, g3, g4, g5⟩ := lst_move_frame lst a (item lst b) hdb
    obtain ⟨k1, k2, k3, k4, k5⟩ :=
      lst_move_frame (lst_move lst a (item lst b)) b (item lst a) hda
    exact ⟨k1.trans g1, k2.trans g2, k3.trans g3, k4.trans g4, k5.trans g5⟩

/-- Back-indices after the Hoare swap. -/
theorem swap_back (lst : Lst) (a b : Int) (hda : item lst a ≠ 0)
    (hdb : item lst b ≠ 0) :
    ∀ x, item_index (lst_move (lst_move lst a (item lst b)) b (item lst a)) x =
      if x = item lst a then reduce lst b
      else if x = item lst b then reduce lst a
      else item_index lst x := by
  intro x
  rw [item_index_move _ b (item lst a) x hda,
    reduce_move lst a b (item lst b) hdb,
    item_index_move lst a (item lst b) x hdb]
  by_cases h1 : item lst a = x
  · rw [if_pos h1]
    rw [if_pos h1.symm]
  · rw [if_neg h1]
    by_cases h2 : item lst b = x
    · rw [if_pos h2]
      rw [if_neg (fun hc => h1 hc.symm), if_pos h2.symm]
    · rw [if_neg h2]
      rw [if_neg (fun hc => h1 hc.symm), if_neg (fun hc => h2 hc.symm)]

theorem hoareLoop_spec (cmp : Addr → Addr → Int) (pv : Addr) (low high : Int) :
    ∀ (fu : Nat) (lst : Lst) (l h : Int),
      h - l ≤ (fu : Int) →
      0 < lst.capacity →
      high - low + 1 ≤ lst.capacity →
      low - 1 ≤ l → l < h → h ≤ high + 1 →
      (∀ i, low ≤ i → i ≤ l → cmp (item lst i) pv ≤ 0) →
      (∀ i, h ≤ i → i ≤ high → 0 ≤ cmp (item lst i) pv) →
      (∃ p, l < p ∧ p ≤ high ∧ 0 ≤ cmp (item lst p) pv) →
      (∃ p, low ≤ p ∧ p < h ∧ cmp (item lst p) pv ≤ 0) →
      (∀ i, low ≤ i → i ≤ high → item lst i ≠ 0) →
      (∀ i, low ≤ i → i ≤ high → item_index lst (item lst i) = reduce lst i) →
      (∀ i j, low ≤ i → i ≤ high → low ≤ j → j ≤ high →
        item lst i = item lst j → i = j) →
      (∃ pp, low ≤ pp ∧ pp ≤ high ∧ item lst pp = pv) →
      ∃ lst2 l2 h2,
        hoareLoop cmp pv lst l h fu = some (lst2, l2, h2) ∧
        low ≤ h2 ∧ h2 ≤ high ∧
        (∀ i, low ≤ i → i ≤ h2 → cmp (item lst2 i) pv ≤ 0) ∧
        (∀ i, h2 < i → i ≤ high → 0 ≤ cmp (item lst2 i) pv) ∧
        lst2.capacity = lst.capacity ∧ lst2.idx = lst.idx ∧
        lst2.num_elements = lst.num_elements ∧ lst2.s = lst.s ∧
        lst2.rc = lst.rc ∧
        (∀ i, low ≤ i → i ≤ high → item lst2 i ≠ 0) ∧
        (∀ i, low ≤ i → i ≤ high →
          item_index lst2 (item lst2 i) = reduce lst2 i) ∧
        (∀ i j, low ≤ i → i ≤ high → low ≤ j → j ≤ high →
          item lst2 i = item lst2 j → i = j) ∧
        (∃ pp, low ≤ pp ∧ pp ≤ high ∧ item lst2 pp = pv) := by
  intro fu
  induction fu with
  | zero =>
    intro lst l h hfu _ _ _ hlh _ _ _ _ _ _ _ _ _
    simp only [Nat.cast_zero] at hfu
    omega
  | succ fu ih =>
    intro lst l h hfu hcap hwin hl1 hlh hh1 hA hB hSL hSH hnz hback hinj hpv
    obtain ⟨pl, hpl1, hpl2, hpl3⟩ := hSL
    obtain ⟨ph, hph1, hph2, hph3⟩ := hSH
    obtain ⟨ql, hql, hqlmin⟩ :=
      @Int.exists_least_of_bdd (fun z => l < z ∧ 0 ≤ cmp (item lst z) pv)
        ⟨l + 1, fun z hz => by omega⟩ ⟨pl, hpl1, hpl3⟩
    have hql_high : ql ≤ high := le_trans (hqlmin pl ⟨hpl1, hpl3⟩) hpl2
    have hql_mid : ∀ i, l < i → i < ql → cmp (item lst i) pv < 0 := by
      intro i hi1 hi2
      by_contra hc
      exact absurd (hqlmin i ⟨hi1, Int.not_lt.mp hc⟩) (by omega)
    have hsu : scanUp cmp pv lst l (lst.capacity.toNat + 2) = some ql := by
      refine scanUp_eq cmp pv lst _ l ql hql.1 ?_ hql_mid (Int.not_lt.mpr hql.2)
      have : (lst.capacity.toNat : Int) = lst.capacity := Int.toNat_of_nonneg (by omega)
      push_cast
      omega
    obtain ⟨qh, hqh, hqhmax⟩ :=
      @Int.exists_greatest_of_bdd (fun z => z < h ∧ cmp (item lst z) pv ≤ 0)
        ⟨h - 1, fun z hz => by omega⟩ ⟨ph, hph2, hph3⟩
    have hqh_low : low ≤ qh := le_trans hph1 (hqhmax ph ⟨hph2, hph3⟩)
    have hqh_mid : ∀ i, qh < i → i < h → cmp (item lst i) pv > 0 := by
      intro i hi1 hi2
      by_contra hc
      exact absurd (hqhmax i ⟨hi2, Int.not_lt.mp hc⟩) (by omega)
    have hsd : scanDown cmp pv lst h (lst.capacity.toNat + 2) = some qh := by
      refine scanDown_eq cmp pv lst _ h qh hqh.1 ?_ hqh_mid (Int.not_lt.mpr hqh.2)
      have : (lst.capacity.toNat : Int) = lst.capacity := Int.toNat_of_nonneg (by omega)
      push_cast
      omega
    rw [hoareLoop, hsd]
    simp only [hsu]
    by_cases hcross : ql ≥ qh
    · rw [if_pos hcross]
      refine ⟨lst, ql, qh, rfl, hqh_low, by omega, ?_, ?_, rfl, rfl, rfl, rfl, rfl,
        hnz, hback, hinj, hpv⟩
      · intro i hi1 hi2
        by_cases hil : i ≤ l
        · exact hA i hi1 hil
        · by_cases hiq : i < ql
          · exact le_of_lt (hql_mid i (by omega) hiq)
          · have hieq : i = qh := by omega
            rw [hieq]
            exact hqh.2
      · intro i hi1 hi2
        by_cases hih : h ≤ i
        · exact hB i hih hi2
        · exact le_of_lt (hqh_mid i hi1 (by omega))
    · rw [if_neg hcross]
      have hlt : ql < qh := Int.not_le.mp hcross
      have hqlw : low ≤ ql ∧ ql ≤ high := ⟨by omega, hql_high⟩
      have hqhw : low ≤ qh ∧ qh ≤ high := ⟨hqh_low, by omega⟩
      obtain ⟨hsw, hfc, hfi, hfn, hfs, hfr⟩ :=
        And.intro (swap_spec lst low high ql qh hcap hwin hqlw hqhw (by omega) hnz).1
          (swap_spec lst low high ql qh hcap hwin hqlw hqhw (by omega) hnz).2
      have hitems_ne : item lst ql ≠ item lst qh := by
        intro hc
        exact absurd (hinj ql qh hqlw.1 hqlw.2 hqhw.1 hqhw.2 hc) (by omega)
      have hbk := swap_back lst ql qh (hnz ql hqlw.1 hqlw.2) (hnz qh hqhw.1 hqhw.2)
      have hred3 : ∀ j : Int,
          reduce (lst_move (lst_move lst ql (item lst qh)) qh (item lst ql)) j =
            reduce lst j := by
        intro j
        show j.emod _ = j.emod lst.capacity
        rw [hfc]
      have hperm : ∀ i, low ≤ i → i ≤ high →
          item (lst_move (lst_move lst ql (item lst qh)) qh (item lst ql)) i =
            item lst (if i = ql then qh else if i = qh then ql else i) := by
        intro i hi1 hi2
        rw [hsw i hi1 hi2]
        by_cases h1 : i = ql
        · rw [if_pos h1, if_pos h1]
        · rw [if_neg h1, if_neg h1]
          by_cases h2 : i = qh
          · rw [if_pos h2, if_pos h2]
          · rw [if_neg h2, if_neg h2]
      have hsig : ∀ i, low ≤ i → i ≤ high →
          low ≤ (if i = ql then qh else if i = qh then ql else i) ∧
          (if i = ql then qh else if i = qh then ql else i) ≤ high := by
        intro i hi1 hi2
        split_ifs <;> omega
    -- continue in the inductive call
      obtain ⟨lst2, l2, h2, hrec, o1, o2, o3, o4, o5, o6, o7, o8, o9, o10, o11,
        o12, o13⟩ :=
        ih (lst_move (lst_move lst ql (item lst qh)) qh (item lst ql)) ql qh
          (by push_cast at hfu ⊢; omega)
          (by rw [hfc]; exact hcap) (by rw [hfc]; exact hwin)
          (by omega) hlt (by omega)
          (by
            intro i hi1 hi2
            rw [hsw i hi1 (by omega)]
            by_cases h1 : i = ql
            · rw [if_pos h1]
              exact hqh.2
            · rw [if_neg h1, if_neg (by omega)]
              by_cases hil : i ≤ l
              · exact hA i hi1 hil
              · exact le_of_lt (hql_mid i (by omega) (by omega)))
          (by
            intro i hi1 hi2
            rw [hsw i (by omega) hi2]
            by_cases h2 : i = qh
            · rw [if_neg (by omega), if_pos h2]
              exact hql.2
            · rw [if_neg (by omega), if_neg h2]
              by_cases hih : h ≤ i
              · exact hB i hih hi2
              · exact le_of_lt (hqh_mid i (by omega) (by omega)))
          (⟨qh, hlt, hqhw.2, by
            rw [hsw qh hqhw.1 hqhw.2, if_neg (by omega), if_pos rfl]
            exact hql.2⟩)
          (⟨ql, hqlw.1, hlt, by
            rw [hsw ql hqlw.1 hqlw.2, if_pos rfl]
            exact hqh.2⟩)
          (by
            intro i hi1 hi2
            rw [hperm i hi1 hi2]
            obtain ⟨hs1, hs2⟩ := hsig i hi1 hi2
            exact hnz _ hs1 hs2)
          (by
            intro i hi1 hi2
            rw [hperm i hi1 hi2, hbk, hred3]
            obtain ⟨hs1, hs2⟩ := hsig i hi1 hi2
            by_cases h1 : i = ql
            · rw [if_pos h1] at *
              rw [if_neg (fun hc => hitems_ne hc.symm), if_pos rfl, h1]
            · rw [if_neg h1] at *
              by_cases h2 : i = qh
              · rw [if_pos h2] at *
                rw [if_pos rfl, h2]
              · rw [if_neg h2] at *
                rw [if_neg (fun hc => absurd (hinj i ql hi1 hi2 hqlw.1 hqlw.2 hc) h1),
                  if_neg (fun hc => absurd (hinj i qh hi1 hi2 hqhw.1 hqhw.2 hc) h2)]
                exact hback i hi1 hi2)
          (by
            intro i j hi1 hi2 hj1 hj2 hc
            rw [hperm i hi1 hi2, hperm j hj1 hj2] at hc
            obtain ⟨hsi1, hsi2⟩ := hsig i hi1 hi2
            obtain ⟨hsj1, hsj2⟩ := hsig j hj1 hj2
            have := hinj _ _ hsi1 hsi2 hsj1 hsj2 hc
            split_ifs at this <;> omega)
          (by
            obtain ⟨pp, hp1, hp2, hp3⟩ := hpv
            refine ⟨if pp = ql then qh else if pp = qh then ql else pp, ?_, ?_, ?_⟩
            · exact (hsig pp hp1 hp2).1
            · exact (hsig pp hp1 hp2).2
            · obtain ⟨hs1, hs2⟩ := hsig pp hp1 hp2
              rw [hperm _ hs1 hs2]
              by_cases w1 : pp = ql
              · rw [if_pos w1, if_neg (show ¬ qh = ql by omega), if_pos rfl, ← w1]
                exact hp3
              · by_cases w2 : pp = qh
                · rw [if_neg w1, if_pos w2, if_pos rfl, ← w2]
                  exact hp3
                · rw [if_neg w1, if_neg w2, if_neg w1, if_neg w2]
                  exact hp3)
      exact ⟨lst2, l2, h2, hrec, o1, o2, o3, o4, o5.trans hfc, o6.trans hfi,
        o7.trans hfn, o8.trans hfs, o9.trans hfr, o10, o11, o12, o13⟩

/-- The pivot-recovery arithmetic of this revision's `partition`
reconstructs the virtual index from the reduced one, for any position of
a window of at most `capacity` entries. -/
theorem recover_eq (lst : Lst) (low high pp : Int) (hcap : 0 < lst.capacity)
    (hwin : high - low + 1 ≤ lst.capacity) (h1 : low ≤ pp) (h2 : pp ≤ high) :
    (if reduce lst pp ≥ reduce lst low then low + reduce lst pp - reduce lst low
     else high - (reduce lst high - reduce lst pp)) = pp := by
  have hc0 : lst.capacity ≠ 0 := by omega
  have hrl1 : 0 ≤ reduce lst low := reduce_nonneg lst low hcap
  have hrl2 : reduce lst low < lst.capacity := reduce_lt lst low hcap
  have key : ∀ d : Int, 0 ≤ d → d ≤ high - low →
      reduce lst (low + d) =
        if reduce lst low + d < lst.capacity then reduce lst low + d
        else reduce lst low + d - lst.capacity := by
    intro d hd1 hd2
    have e1 : reduce lst (low + d) = (reduce lst low + d) % lst.capacity := by
      show (low + d) % lst.capacity = _
      rw [Int.add_emod, Int.emod_eq_of_lt hd1 (by omega : d < lst.capacity)]
      rfl
    rw [e1]
    by_cases hlt : reduce lst low + d < lst.capacity
    · rw [if_pos hlt]
      exact Int.emod_eq_of_lt (by omega) hlt
    · rw [if_neg hlt]
      have e2 : (reduce lst low + d) % lst.capacity
          = (reduce lst low + d - lst.capacity) % lst.capacity := by
        conv_lhs => rw [show reduce lst low + d =
          (reduce lst low + d - lst.capacity) + 1 * lst.capacity by ring]
        rw [Int.add_mul_emod_self]
      rw [e2]
      exact Int.emod_eq_of_lt (by omega) (by omega)
  have hpp := key (pp - low) (by omega) (by omega)
  have hhigh := key (high - low) (by omega) (by omega)
  rw [show low + (pp - low) = pp by ring] at hpp
  rw [show low + (high - low) = high by ring] at hhigh
  by_cases ha : reduce lst low + (pp - low) < lst.capacity
  · rw [hpp, if_pos ha, if_pos (by omega)]
    ring
  · have hb : ¬ (reduce lst low + (high - low) < lst.capacity) := by omega
    rw [hpp, if_neg ha, hhigh, if_neg hb, if_neg (by omega)]
    ring

/-- The pivot pre-move of `partition` (swapping the randomly chosen
position with `low`, skipped when they coincide): item characterisation
and preservation of the frame and of the element invariants. -/
theorem preswap_spec (lst : Lst) (low high pidx : Int) (hcap : 0 < lst.capacity)
    (hwin : high - low + 1 ≤ lst.capacity)
    (hpw1 : low ≤ pidx) (hpw2 : pidx ≤ high) (hle : low ≤ high)
    (hnz : ∀ i, low ≤ i → i ≤ high → item lst i ≠ 0)
    (hback : ∀ i, low ≤ i → i ≤ high → item_index lst (item lst i) = reduce lst i)
    (hinj : ∀ i j, low ≤ i → i ≤ high → low ≤ j → j ≤ high →
      item lst i = item lst j → i = j) :
    ∀ lst1, lst1 = (if pidx ≠ low then
        lst_move (lst_move lst pidx (item lst low)) low (item lst pidx)
      else lst) →
      (∀ j, low ≤ j → j ≤ high → item lst1 j =
        if j = low then item lst pidx else if j = pidx then item lst low
        else item lst j) ∧
      (lst1.capacity = lst.capacity ∧ lst1.idx = lst.idx ∧
       lst1.num_elements = lst.num_elements ∧ lst1.s = lst.s ∧
       lst1.rc = lst.rc) ∧
      (∀ i, low ≤ i → i ≤ high → item lst1 i ≠ 0) ∧
      (∀ i, low ≤ i → i ≤ high → item_index lst1 (item lst1 i) = reduce lst1 i) ∧
      (∀ i j, low ≤ i → i ≤ high → low ≤ j → j ≤ high →
        item lst1 i = item lst1 j → i = j) := by
  intro lst1 hdef
  by_cases hpl : pidx = low
  · rw [if_neg (fun hc => hc hpl)] at hdef
    subst hdef
    refine ⟨?_, ⟨rfl, rfl, rfl, rfl, rfl⟩, hnz, hback, hinj⟩
    intro j hj1 hj2
    by_cases hjl : j = low
    · rw [if_pos hjl, hpl, hjl]
    · rw [if_neg hjl, if_neg (fun hc => hjl (hc.trans hpl))]
  · rw [if_pos hpl] at hdef
    have hqlw : low ≤ pidx ∧ pidx ≤ high := ⟨hpw1, hpw2⟩
    have hqhw : low ≤ low ∧ low ≤ high := ⟨le_refl low, hle⟩
    have hsw := (swap_spec lst low high pidx low hcap hwin hqlw hqhw hpl hnz).1
    have hfr := (swap_spec lst low high pidx low hcap hwin hqlw hqhw hpl hnz).2
    have hbk := swap_back lst pidx low (hnz pidx hpw1 hpw2) (hnz low (le_refl low) hle)
    have hitems_ne : item lst pidx ≠ item lst low := by
      intro hc
      exact absurd (hinj pidx low hpw1 hpw2 (le_refl low) hle hc) hpl
    have hred3 : ∀ j : Int, reduce lst1 j = reduce lst j := by
      intro j
      show j.emod lst1.capacity = j.emod lst.capacity
      rw [hdef, (swap_spec lst low high pidx low hcap hwin hqlw hqhw hpl hnz).2.1]
    have hchar : ∀ j, low ≤ j → j ≤ high → item lst1 j =
        if j = low then item lst pidx else if j = pidx then item lst low
        else item lst j := by
      intro j hj1 hj2
      rw [hdef, hsw j hj1 hj2]
      by_cases h1 : j = pidx
      · rw [if_pos h1, if_neg (show ¬ j = low from fun hc => hpl ((hc ▸ h1).symm)),
          if_pos h1]
      · rw [if_neg h1]
        by_cases h2 : j = low
        · rw [if_pos h2, if_pos h2]
        · rw [if_neg h2, if_neg h2, if_neg h1]
    have hperm : ∀ j, low ≤ j → j ≤ high → item lst1 j =
        item lst (if j = low then pidx else if j = pidx then low else j) := by
      intro j hj1 hj2
      rw [hchar j hj1 hj2]
      by_cases h1 : j = low
      · rw [if_pos h1, if_pos h1]
      · rw [if_neg h1, if_neg h1]
        by_cases h2 : j = pidx
        · rw [if_pos h2, if_pos h2]
        · rw [if_neg h2, if_neg h2]
    have hsig : ∀ j, low ≤ j → j ≤ high →
        low ≤ (if j = low then pidx else if j = pidx then low else j) ∧
        (if j = low then pidx else if j = pidx then low else j) ≤ high := by
      intro j hj1 hj2
      split_ifs <;> omega
    refine ⟨hchar, ⟨?_, ?_, ?_, ?_, ?_⟩, ?_, ?_, ?_⟩
    · rw [hdef]; exact hfr.1
    · rw [hdef]; exact hfr.2.1
    · rw [hdef]; exact hfr.2.2.1
    · rw [hdef]; exact hfr.2.2.2.1
    · rw [hdef]; exact hfr.2.2.2.2
    · intro i hi1 hi2
      rw [hperm i hi1 hi2]
      obtain ⟨hs1, hs2⟩ := hsig i hi1 hi2
      exact hnz _ hs1 hs2
    · intro i hi1 hi2
      rw [hperm i hi1 hi2, hred3]
      have hbk1 : ∀ x, item_index lst1 x =
          if x = item lst pidx then reduce lst low
          else if x = item lst low then reduce lst pidx
          else item_index lst x := by
        intro x
        rw [hdef]
        exact hbk x
      rw [hbk1]
      obtain ⟨hs1, hs2⟩ := hsig i hi1 hi2
      by_cases h1 : i = low
      · rw [if_pos h1] at *
        rw [if_pos rfl, h1]
      · rw [if_neg h1] at *
        by_cases h2 : i = pidx
        · rw [if_pos h2] at *
          rw [if_neg (fun hc => hitems_ne hc.symm), if_pos rfl, h2]
        · rw [if_neg h2] at *
          rw [if_neg (fun hc => absurd (hinj i pidx hi1 hi2 hpw1 hpw2 hc) h2),
            if_neg (fun hc => absurd (hinj i low hi1 hi2 (le_refl low) hle hc) h1)]
          exact hback i hi1 hi2
    · intro i j hi1 hi2 hj1 hj2 hc
      rw [hperm i hi1 hi2, hperm j hj1 hj2] at hc
      obtain ⟨hsi1, hsi2⟩ := hsig i hi1 hi2
      obtain ⟨hsj1, hsj2⟩ := hsig j hj1 hj2
      have := hinj _ _ hsi1 hsi2 hsj1 hsj2 hc
      split_ifs at this <;> omega

theorem item_set_s (l : Lst) (st : PivotStack) (j : Int) :
    item { l with s := st } j = item l j := rfl

/-- The post-loop canonicalisation of `partition`: the pivot ends at the
final split point, the stack gets the split point pushed, and the
ordering of the two sides is preserved. -/
theorem partitionFinish_spec (cmp : Addr → Addr → Int) (low high : Int) (pv : Addr)
    (lst2 : Lst) (h2 : Int)
    (hcap : 0 < lst2.capacity) (hwin : high - low + 1 ≤ lst2.capacity)
    (hh1 : low ≤ h2) (hh2 : h2 ≤ high)
    (hA : ∀ i, low ≤ i → i ≤ h2 → cmp (item lst2 i) pv ≤ 0)
    (hB : ∀ i, h2 < i → i ≤ high → 0 ≤ cmp (item lst2 i) pv)
    (hnz : ∀ i, low ≤ i → i ≤ high → item lst2 i ≠ 0)
    (hback : ∀ i, low ≤ i → i ≤ high → item_index lst2 (item lst2 i) = reduce lst2 i)
    (hinj : ∀ i j, low ≤ i → i ≤ high → low ≤ j → j ≤ high →
      item lst2 i = item lst2 j → i = j)
    (pp : Int) (hp1 : low ≤ pp) (hp2 : pp ≤ high) (hp3 : item lst2 pp = pv) :
    ∃ hfin, low ≤ hfin ∧ hfin ≤ high ∧
      (partitionFinish low high pv lst2 h2).s = stack_push lst2.s hfin ∧
      (partitionFinish low high pv lst2 h2).capacity = lst2.capacity ∧
      (partitionFinish low high pv lst2 h2).idx = lst2.idx ∧
      (partitionFinish low high pv lst2 h2).num_elements = lst2.num_elements ∧
      item (partitionFinish low high pv lst2 h2) hfin = pv ∧
      (∀ i, low ≤ i → i < hfin →
        cmp (item (partitionFinish low high pv lst2 h2) i) pv ≤ 0) ∧
      (∀ i, hfin < i → i ≤ high →
        0 ≤ cmp (item (partitionFinish low high pv lst2 h2) i) pv) := by
  have hpi : item_index lst2 pv = reduce lst2 pp := by
    rw [← hp3]
    exact hback pp hp1 hp2
  have hrec : (if item_index lst2 pv ≥ reduce lst2 low
        then low + item_index lst2 pv - reduce lst2 low
        else high - (reduce lst2 high - item_index lst2 pv)) = pp := by
    rw [hpi]
    exact recover_eq lst2 low high pp hcap hwin hp1 hp2
  rw [partitionFinish, hrec]
  by_cases hlt : pp < h2
  · have hgt : ¬ pp > h2 := by omega
    rw [if_pos hlt, if_neg hgt, if_neg hgt]
    have hppne : pp ≠ h2 := by omega
    have hsw : ∀ j, low ≤ j → j ≤ high →
        item (lst_move (lst_move lst2 pp (item lst2 h2)) h2 pv) j =
          if j = pp then item lst2 h2 else if j = h2 then pv
          else item lst2 j := by
      intro j hj1 hj2
      rw [← hp3]
      exact (swap_spec lst2 low high pp h2 hcap hwin ⟨hp1, hp2⟩ ⟨hh1, hh2⟩
        hppne hnz).1 j hj1 hj2
    have hfr : (lst_move (lst_move lst2 pp (item lst2 h2)) h2 pv).capacity =
          lst2.capacity ∧
        (lst_move (lst_move lst2 pp (item lst2 h2)) h2 pv).idx = lst2.idx ∧
        (lst_move (lst_move lst2 pp (item lst2 h2)) h2 pv).num_elements =
          lst2.num_elements ∧
        (lst_move (lst_move lst2 pp (item lst2 h2)) h2 pv).s = lst2.s ∧
        (lst_move (lst_move lst2 pp (item lst2 h2)) h2 pv).rc = lst2.rc := by
      rw [← hp3]
      exact (swap_spec lst2 low high pp h2 hcap hwin ⟨hp1, hp2⟩ ⟨hh1, hh2⟩
        hppne hnz).2
    refine ⟨h2, hh1, hh2, ?_, hfr.1, hfr.2.1, hfr.2.2.1, ?_, ?_, ?_⟩
    · show stack_push (lst_move (lst_move lst2 pp (item lst2 h2)) h2 pv).s h2 =
        stack_push lst2.s h2
      rw [hfr.2.2.2.1]
    · rw [item_set_s, hsw h2 hh1 hh2, if_neg (fun hc => hppne hc.symm), if_pos rfl]
    · intro i hi1 hi2
      rw [item_set_s, hsw i hi1 (by omega)]
      by_cases h1 : i = pp
      · rw [if_pos h1]
        exact hA h2 hh1 (le_refl h2)
      · rw [if_neg h1, if_neg (by omega)]
        exact hA i hi1 (by omega)
    · intro i hi1 hi2
      rw [item_set_s, hsw i (by omega) hi2, if_neg (by omega), if_neg (by omega)]
      exact hB i hi1 hi2
  · by_cases hgt : pp > h2
    · rw [if_neg hlt, if_pos hgt, if_pos hgt]
      have hfh : h2 + 1 ≤ high := by omega
      by_cases hne : pp = h2 + 1
      · have hpv0 : pv ≠ 0 := by
          rw [← hp3]
          exact hnz pp hp1 hp2
        have hd1 : item lst2 (h2 + 1) ≠ 0 := hnz _ (by omega) hfh
        have hfr1 := lst_move_frame lst2 pp (item lst2 (h2 + 1)) hd1
        have hfr2 := lst_move_frame (lst_move lst2 pp (item lst2 (h2 + 1)))
          (h2 + 1) pv hpv0
        have hm1 : ∀ j, item (lst_move lst2 pp (item lst2 (h2 + 1))) j =
            if reduce lst2 pp = reduce lst2 j then item lst2 (h2 + 1)
            else item lst2 j :=
          fun j => item_move lst2 pp j _ hd1 hcap
        have hm2 : ∀ j,
            item (lst_move (lst_move lst2 pp (item lst2 (h2 + 1))) (h2 + 1) pv) j =
              if reduce lst2 (h2 + 1) = reduce lst2 j then pv
              else item (lst_move lst2 pp (item lst2 (h2 + 1))) j := by
          intro j
          rw [item_move (lst_move lst2 pp (item lst2 (h2 + 1))) (h2 + 1) j pv
              hpv0 (by rw [hfr1.1]; exact hcap),
            reduce_move lst2 pp (h2 + 1) _ hd1, reduce_move lst2 pp j _ hd1]
        have hchar : ∀ j, low ≤ j → j ≤ high →
            item (lst_move (lst_move lst2 pp (item lst2 (h2 + 1))) (h2 + 1) pv) j =
              if j = pp then pv else item lst2 j := by
          intro j hj1 hj2
          rw [hm2 j, hm1 j, ← hne]
          by_cases hr : reduce lst2 pp = reduce lst2 j
          · have hjp : pp = j := reduce_inj lst2 hcap (by omega) (by omega) hr
            rw [if_pos hr, if_pos hjp.symm]
          · rw [if_neg hr, if_neg hr,
              if_neg (fun hc : j = pp => hr (by rw [hc]))]
        refine ⟨h2 + 1, by omega, hfh, ?_, hfr2.1.trans hfr1.1,
          hfr2.2.1.trans hfr1.2.1, hfr2.2.2.1.trans hfr1.2.2.1, ?_, ?_, ?_⟩
        · show stack_push
            (lst_move (lst_move lst2 pp (item lst2 (h2 + 1))) (h2 + 1) pv).s
            (h2 + 1) = stack_push lst2.s (h2 + 1)
          rw [hfr2.2.2.2.1, hfr1.2.2.2.1]
        · rw [item_set_s, hchar (h2 + 1) (by omega) hfh, if_pos hne.symm]
        · intro i hi1 hi2
          rw [item_set_s, hchar i hi1 (by omega), if_neg (by omega)]
          exact hA i hi1 (by omega)
        · intro i hi1 hi2
          rw [item_set_s, hchar i (by omega) hi2, if_neg (by omega)]
          exact hB i (by omega) hi2
      · have hsw : ∀ j, low ≤ j → j ≤ high →
            item (lst_move (lst_move lst2 pp (item lst2 (h2 + 1))) (h2 + 1) pv) j =
              if j = pp then item lst2 (h2 + 1) else if j = h2 + 1 then pv
              else item lst2 j := by
          intro j hj1 hj2
          rw [← hp3]
          exact (swap_spec lst2 low high pp (h2 + 1) hcap hwin ⟨hp1, hp2⟩
            ⟨by omega, hfh⟩ hne hnz).1 j hj1 hj2
        have hfr : (lst_move (lst_move lst2 pp (item lst2 (h2 + 1)))
              (h2 + 1) pv).capacity = lst2.capacity ∧
            (lst_move (lst_move lst2 pp (item lst2 (h2 + 1)))
              (h2 + 1) pv).idx = lst2.idx ∧
            (lst_move (lst_move lst2 pp (item lst2 (h2 + 1)))
              (h2 + 1) pv).num_elements = lst2.num_elements ∧
            (lst_move (lst_move lst2 pp (item lst2 (h2 + 1)))
              (h2 + 1) pv).s = lst2.s ∧
            (lst_move (lst_move lst2 pp (item lst2 (h2 + 1)))
              (h2 + 1) pv).rc = lst2.rc := by
          rw [← hp3]
          exact (swap_spec lst2 low high pp (h2 + 1) hcap hwin ⟨hp1, hp2⟩
            ⟨by omega, hfh⟩ hne hnz).2
        refine ⟨h2 + 1, by omega, hfh, ?_, hfr.1, hfr.2.1, hfr.2.2.1, ?_, ?_, ?_⟩
        · show stack_push
            (lst_move (lst_move lst2 pp (item lst2 (h2 + 1))) (h2 + 1) pv).s
            (h2 + 1) = stack_push lst2.s (h2 + 1)
          rw [hfr.2.2.2.1]
        · rw [item_set_s, hsw (h2 + 1) (by omega) hfh,
            if_neg (fun hc => hne hc.symm), if_pos rfl]
        · intro i hi1 hi2
          rw [item_set_s, hsw i hi1 (by omega), if_neg (by omega),
            if_neg (by omega)]
          exact hA i hi1 (by omega)
        · intro i hi1 hi2
          rw [item_set_s, hsw i (by omega) hi2]
          by_cases h1 : i = pp
          · rw [if_pos h1]
            exact hB (h2 + 1) (by omega) hfh
          · rw [if_neg h1, if_neg (by omega)]
            exact hB i (by omega) hi2
    · rw [if_neg hlt, if_neg hgt, if_neg hgt]
      have hpph : pp = h2 := by omega
      refine ⟨h2, hh1, hh2, rfl, rfl, rfl, rfl, ?_, ?_, ?_⟩
      · rw [item_set_s, ← hpph]
        exact hp3
      · intro i hi1 hi2
        rw [item_set_s]
        exact hA i hi1 (by omega)
      · intro i hi1 hi2
        rw [item_set_s]
        exact hB i hi1 hi2

set_option maxHeartbeats 1000000 in
/-- C5 (amended): on a pure bucket whose virtual window `[low, high]` fits
the capacity, holds registered nonzero elements with consistent
back-indices and no aliasing, and under a reflexive comparator,
`partition` picks the random index `low + rand % size`, uses its element
as the pivot value, Hoare-partitions the bucket and canonicalises so that
the pivot ends at the split point `hsplit`, which is pushed onto the
pivot stack; every element before `hsplit` compares `<= 0` against the
pivot (equal-comparing elements may sit on the left) and every element
after it compares `>= 0`; a single-element bucket (`low = high`) is
handled by pushing `low` directly without partitioning. -/
theorem partition_pivot_at_split_point
    (cmp : Addr → Addr → Int) (rnd : Nat → Nat) (lst : Lst) (stack_index : Nat)
    (low high : Int) (pv : Addr)
    (hlow : low = bucket_lwb lst stack_index)
    (hhigh : high = bucket_upb lst stack_index)
    (hpvdef : pv = item lst (low +
      ((rnd lst.rc % 4294967296 % (high + 1 - low).toNat : Nat) : Int)))
    (hcap : 0 < lst.capacity)
    (hwin : high - low + 1 ≤ lst.capacity)
    (hle : low ≤ high)
    (hself : ∀ x, cmp x x = 0)
    (hnz : ∀ i, low ≤ i → i ≤ high → item lst i ≠ 0)
    (hback : ∀ i, low ≤ i → i ≤ high → item_index lst (item lst i) = reduce lst i)
    (hinj : ∀ i j, low ≤ i → i ≤ high → low ≤ j → j ≤ high →
      item lst i = item lst j → i = j) :
    ∃ lst2 hsplit,
      partition cmp rnd lst stack_index = some lst2 ∧
      low ≤ hsplit ∧ hsplit ≤ high ∧
      lst2.s = stack_push lst.s hsplit ∧
      lst2.capacity = lst.capacity ∧ lst2.idx = lst.idx ∧
      lst2.num_elements = lst.num_elements ∧
      item lst2 hsplit = pv ∧
      (∀ i, low ≤ i → i < hsplit → cmp (item lst2 i) pv ≤ 0) ∧
      (∀ i, hsplit < i → i ≤ high → 0 ≤ cmp (item lst2 i) pv) := by
  by_cases htriv : equivalent lst low high
  · have hlh : low = high := by
      obtain ⟨k, hk⟩ := Int.dvd_of_emod_eq_zero
        (show (low - high) % lst.capacity = 0 from htriv)
      have hk0 : k = 0 := by nlinarith
      rw [hk0, mul_zero] at hk
      omega
    refine ⟨{ lst with s := stack_push lst.s low }, low, ?_, le_refl low, hle,
      rfl, rfl, rfl, rfl, ?_, ?_, ?_⟩
    · rw [partition, ← hlow, ← hhigh, if_pos htriv]
    · rw [item_set_s, hpvdef, ← hlh, show (low + 1 - low : Int) = 1 by ring,
        show ((1 : Int)).toNat = 1 from rfl, Nat.mod_one,
        show (((0 : Nat)) : Int) = 0 from rfl, add_zero]
    · intro i hi1 hi2
      omega
    · intro i hi1 hi2
      omega
  · have hltlh : low < high := by
      rcases lt_or_eq_of_le hle with hl | hl
      · exact hl
      · exfalso
        apply htriv
        show reduce lst (low - high) = 0
        rw [hl, sub_self]
        exact Int.zero_emod _
    have hmod : (LstC.fr_fast_rand rnd lst).1 % (high + 1 - low).toNat <
        (high + 1 - low).toNat :=
      Nat.mod_lt _ (by omega)
    have hpw1 : low ≤ low +
        (((LstC.fr_fast_rand rnd lst).1 % (high + 1 - low).toNat : Nat) : Int) := by
      omega
    have hpw2 : low +
        (((LstC.fr_fast_rand rnd lst).1 % (high + 1 - low).toNat : Nat) : Int) ≤
          high := by
      omega
    have hbp : item (LstC.fr_fast_rand rnd lst).2 (low +
        (((LstC.fr_fast_rand rnd lst).1 % (high + 1 - low).toNat : Nat) : Int)) =
          pv := by
      rw [hpvdef]
      rfl
    rw [show partition cmp rnd lst stack_index =
        (hoareLoop cmp pv
          (if low + (((LstC.fr_fast_rand rnd lst).1 %
                (high + 1 - low).toNat : Nat) : Int) ≠ low then
            lst_move (lst_move (LstC.fr_fast_rand rnd lst).2
              (low + (((LstC.fr_fast_rand rnd lst).1 %
                (high + 1 - low).toNat : Nat) : Int))
              (item (LstC.fr_fast_rand rnd lst).2 low)) low pv
          else (LstC.fr_fast_rand rnd lst).2)
          (low - 1) (high + 1)
          ((if low + (((LstC.fr_fast_rand rnd lst).1 %
                (high + 1 - low).toNat : Nat) : Int) ≠ low then
            lst_move (lst_move (LstC.fr_fast_rand rnd lst).2
              (low + (((LstC.fr_fast_rand rnd lst).1 %
                (high + 1 - low).toNat : Nat) : Int))
              (item (LstC.fr_fast_rand rnd lst).2 low)) low pv
          else (LstC.fr_fast_rand rnd lst).2).capacity.toNat + 2)).map
          (fun lh => partitionFinish low high pv lh.1 lh.2.2) from by
      rw [partition, ← hlow, ← hhigh, if_neg htriv]; simp only []; rw [hbp]]
    set l1 := if low + (((LstC.fr_fast_rand rnd lst).1 %
          (high + 1 - low).toNat : Nat) : Int) ≠ low then
        lst_move (lst_move (LstC.fr_fast_rand rnd lst).2
          (low + (((LstC.fr_fast_rand rnd lst).1 %
            (high + 1 - low).toNat : Nat) : Int))
          (item (LstC.fr_fast_rand rnd lst).2 low)) low pv
      else (LstC.fr_fast_rand rnd lst).2 with hl1
    obtain ⟨hchar1, hfr1, hnz1, hback1, hinj1⟩ :=
      preswap_spec ((LstC.fr_fast_rand rnd lst).2) low high
        (low + (((LstC.fr_fast_rand rnd lst).1 %
          (high + 1 - low).toNat : Nat) : Int))
        hcap hwin hpw1 hpw2 hle hnz hback hinj l1 (by rw [hl1, hbp])
    have hlowitem : item l1 low = pv := by
      rw [hchar1 low (le_refl low) hle, if_pos rfl]
      exact hbp
    have hcapeq : l1.capacity = lst.capacity := hfr1.1
    have hfuel : high + 1 - (low - 1) ≤ ((l1.capacity.toNat + 2 : Nat) : Int) := by
      rw [hcapeq]
      have ht : (lst.capacity.toNat : Int) = lst.capacity :=
        Int.toNat_of_nonneg (by omega)
      push_cast
      omega
    obtain ⟨lst2, l2, h2, hloop, o1, o2, o3, o4, o5, o6, o7, o8, o9, o10,
        o11, o12, o13⟩ :=
      hoareLoop_spec cmp pv low high (l1.capacity.toNat + 2) l1 (low - 1)
        (high + 1) hfuel (by rw [hcapeq]; exact hcap)
        (by rw [hcapeq]; exact hwin) (le_refl _) (by omega) (le_refl _)
        (fun i hi1 hi2 => absurd hi1 (by omega))
        (fun i hi1 hi2 => absurd hi1 (by omega))
        ⟨low, by omega, hle, by rw [hlowitem]; exact le_of_eq (hself pv).symm⟩
        ⟨low, le_refl low, by omega, by rw [hlowitem]; exact le_of_eq (hself pv)⟩
        hnz1 hback1 hinj1
        ⟨low, le_refl low, hle, hlowitem⟩
    rw [hloop]
    simp only [Option.map_some']
    have hc2 : lst2.capacity = lst.capacity := by
      rw [o5, hcapeq]
    have hs2 : lst2.s = lst.s := by
      rw [o8]
      exact hfr1.2.2.2.1
    have hix2 : lst2.idx = lst.idx := by
      rw [o6]
      exact hfr1.2.1
    have hn2 : lst2.num_elements = lst.num_elements := by
      rw [o7]
      exact hfr1.2.2.1
    obtain ⟨pp, hp1, hp2, hp3⟩ := o13
    obtain ⟨hfin, q1, q2, q3, q4, q5, q6, q7, q8, q9⟩ :=
      partitionFinish_spec cmp low high pv lst2 h2
        (by rw [hc2]; exact hcap) (by rw [hc2]; exact hwin)
        o1 o2 o3 o4 o10 o11 o12 pp hp1 hp2 hp3
    refine ⟨partitionFinish low high pv lst2 h2, hfin, rfl, q1, q2, ?_, ?_,
      ?_, ?_, q7, q8, q9⟩
    · rw [q3, hs2]
    · rw [q4, hc2]
    · rw [q5, hix2]
    · rw [q6, hn2]

end LstH

/-- Witness for `LstH.partition_pivot_at_split_point`: partitioning the
two-element bucket `[7, 8]` of `c5lst` under the decade comparator (PRNG
draw 0 picks the element 7 as pivot). -/
theorem partition_pivot_at_split_point_witness :
    ∃ lst2 hsplit,
      LstH.partition cmpDecade rndZero c5lst 0 = some lst2 ∧
      (0 : Int) ≤ hsplit ∧ hsplit ≤ 1 ∧
      lst2.s = LstC.stack_push c5lst.s hsplit ∧
      lst2.capacity = c5lst.capacity ∧ lst2.idx = c5lst.idx ∧
      lst2.num_elements = c5lst.num_elements ∧
      LstC.item lst2 hsplit = 7 ∧
      (∀ i, (0 : Int) ≤ i → i < hsplit → cmpDecade (LstC.item lst2 i) 7 ≤ 0) ∧
      (∀ i, hsplit < i → i ≤ 1 → 0 ≤ cmpDecade (LstC.item lst2 i) 7) :=
  LstH.partition_pivot_at_split_point cmpDecade rndZero c5lst 0 0 1 7
    (by decide) (by decide) (by decide) (by decide) (by decide) (by decide)
    (fun x => by simp [cmpDecade])
    (fun i h1 h2 => by
      have hc : i = 0 ∨ i = 1 := by omega
      rcases hc with h | h <;> subst h <;> decide)
    (fun i h1 h2 => by
      have hc : i = 0 ∨ i = 1 := by omega
      rcases hc with h | h <;> subst h <;> decide)
    (fun i j h1 h2 h3 h4 => by
      have hc : i = 0 ∨ i = 1 := by omega
      have hd : j = 0 ∨ j = 1 := by omega
      rcases hc with h | h <;> rcases hd with h' | h' <;> subst h <;> subst h' <;>
        decide)
